import Mathlib

/-!
Verification development for the GameChanger Configuration Diff &
Performance Correlation Engine (src/comparison.py, src/frameview_integration.py).

The Python code is shallowly embedded:
* parsed configuration values (Python's dynamically-typed parse results)
  become the closed variant `Value`; Python `None` (which also represents
  JSON `null`) is `Value.null`;
* Python dicts become association lists `List (String × Value)` with
  last-write-wins insertion (`pyInsert`), preserving insertion order;
* Python floats are modelled as exact rationals `ℚ`;
* functions that recurse through nested dict values are written with an
  explicit fuel argument (structural recursion on the fuel, so that the
  kernel can evaluate them); the public entry points supply the combined
  node count of their arguments as fuel, which dominates the recursion
  depth (`pyEq_adq` proves the value-equality tests fuel-independent
  above this bound);
* fallible code (Python exceptions) returns `Except`/`Option`.
-/

set_option linter.unusedVariables false

/-- The dynamic values produced by the configuration parsers: Python
`None` / JSON `null`, `bool`, `int`, `float`, `str`, `list` and `dict`.
A Python dict is an insertion-ordered association list. -/

inductive Value where
  | null
  | bool (b : Bool)
  | int (n : ℤ)
  | float (q : ℚ)
  | str (s : String)
  | list (xs : List Value)
  | dict (entries : List (String × Value))

/-- Association-list lookup, modelling Python `d.get(key)` / `d[key]`
(on the duplicate-free lists produced by `pyInsert` the first match is
the only match). -/

def pyLookup : List (String × Value) → String → Option Value
  | [], _ => none
  | (k, v) :: rest, key => if k == key then some v else pyLookup rest key


/-- Python `key in d`. -/
def pyHasKey (d : List (String × Value)) (key : String) : Bool :=
  (pyLookup d key).isSome

/-- Python `d[key] = v`: replace in place if the key exists (keeping its
original position, as CPython dicts do), otherwise append. -/

def pyInsert : List (String × Value) → String → Value → List (String × Value)
  | [], key, v => [(key, v)]
  | (k, w) :: rest, key, v =>
    if k == key then (k, v) :: rest else (k, w) :: pyInsert rest key v

/-- The numeric view used by Python `==`: `True == 1`, `1 == 1.0`, etc.
Returns `none` for non-numeric values. -/

def numVal : Value → Option ℚ
  | .bool b => some (if b then 1 else 0)
  | .int n => some (n : ℚ)
  | .float q => some q
  | _ => none


mutual

/-- Node count of a value; used only to compute a sufficient fuel for the
fuel-indexed recursions below. -/
def vsize : Value → Nat
  | .null => 1
  | .bool _ => 1
  | .int _ => 1
  | .float _ => 1
  | .str _ => 1
  | .list xs => 1 + vsizeL xs
  | .dict d => 1 + vsizeE d

/-- Node count of a list of values. -/
def vsizeL : List Value → Nat
  | [] => 1
  | x :: xs => 1 + vsize x + vsizeL xs

/-- Node count of a dict's entry list. -/
def vsizeE : List (String × Value) → Nat
  | [] => 1
  | (_, v) :: r => 3 + vsize v + vsizeE r

end


mutual

/-- Fuel-indexed model of Python `==` on parsed values.  Numbers compare
by value across `bool`/`int`/`float`; strings, lists and dicts compare
structurally; a dict comparison follows CPython: equal lengths and every
entry of the left dict present and equal in the right one. -/
def pyEqF : Nat → Value → Value → Bool
  | 0, _, _ => false
  | f + 1, a, b =>
    match a, b with
    | .null, .null => true
    | .str s, .str t => s == t
    | .list xs, .list ys => pyEqListF f xs ys
    | .dict d1, .dict d2 => (d1.length == d2.length) && pyInclF f d1 d2
    | a, b =>
      match numVal a, numVal b with
      | some p, some q => p == q
      | _, _ => false

/-- Elementwise Python `==` on lists. -/
def pyEqListF : Nat → List Value → List Value → Bool
  | 0, _, _ => false
  | _ + 1, [], [] => true
  | f + 1, x :: xs, y :: ys => pyEqF f x y && pyEqListF f xs ys
  | _ + 1, _, _ => false

/-- CPython dict equality, inclusion direction: every `(k, v)` of the
first dict has `pyLookup d2 k = some w` with `v == w`. -/
def pyInclF : Nat → List (String × Value) → List (String × Value) → Bool
  | 0, _, _ => false
  | _ + 1, [], _ => true
  | f + 1, (k, v) :: rest, d2 =>
    (match pyLookup d2 k with
     | some w => pyEqF f v w
     | none => false) && pyInclF f rest d2

end


/-- Python `==` on parsed values (`pyEqF` with provably sufficient fuel). -/
def pyEq (a b : Value) : Bool :=
  pyEqF (vsize a + vsize b) a b


/-- Python `isinstance(v, dict)`. -/
def Value.isDict : Value → Bool
  | .dict _ => true
  | _ => false

/-- Well-formedness of a parsed value: every dict, at any depth (also
inside lists), has pairwise-distinct keys.  The parsers guarantee this
(`pyInsert` never creates a duplicate key); spec §3 states it as the
ValueModel invariant. -/

inductive WfV : Value → Prop where
  | null : WfV .null
  | bool (b : Bool) : WfV (.bool b)
  | int (n : ℤ) : WfV (.int n)
  | float (q : ℚ) : WfV (.float q)
  | str (s : String) : WfV (.str s)
  | list (xs : List Value) (h : ∀ x ∈ xs, WfV x) : WfV (.list xs)
  | dict (d : List (String × Value)) (hnd : (d.map Prod.fst).Nodup)
      (h : ∀ kv ∈ d, WfV kv.2) : WfV (.dict d)


/-- Well-formedness of a parsed mapping (a top-level dict). -/
def WfE (d : List (String × Value)) : Prop := WfV (.dict d)


/-- Prop form of the dict inclusion used by CPython's dict equality. -/
def PyIncl (d1 d2 : List (String × Value)) : Prop :=
  ∀ k v, (k, v) ∈ d1 → ∃ w, pyLookup d2 k = some w ∧ pyEq v w = true


/-- The non-recursive numeric branch of Python `==`. -/
def numEqB (a b : Value) : Bool :=
  match numVal a, numVal b with
  | some p, some q => p == q
  | _, _ => false


-- ### Classification of setting impact (`ConfigComparator._assess_impact`)

/-- Python `needle in hay` prefix test on character lists. -/
def isPre : List Char → List Char → Bool
  | [], _ => true
  | _ :: _, [] => false
  | a :: as, b :: bs => a == b && isPre as bs


/-- Python substring containment `needle in hay`. -/
def subIn (needle : List Char) : List Char → Bool
  | [] => isPre needle []
  | c :: rest => isPre needle (c :: rest) || subIn needle rest


/-- Python `pattern in setting` on strings. -/
def strIn (pattern setting : String) : Bool :=
  subIn pattern.data setting.data


/-- Python `s.lower()` (ASCII, which covers every pattern below). -/
def pyLower (s : String) : String :=
  ⟨s.data.map Char.toLower⟩


/-- `joystick_patterns` of `_assess_impact` (comparison.py lines 421-425). -/
def joystick_patterns : List String :=
  ["joy", "stick", "button", "axis", "input_device", "controller",
   "bind", "key_", "mouse_", "joystick_", "device_", "keymap",
   "throttle", "rudder", "pedal", "hat", "pov", "trigger"]


/-- `high_impact_patterns` of `_assess_impact` (comparison.py lines 431-435). -/
def high_impact_patterns : List String :=
  ["resolution", "msaa", "ssaa", "shadow", "texture", "visibility",
   "preload", "forest", "water", "effects", "clouds", "terrain",
   "fps", "vsync", "fullscreen", "gamma", "brightness"]


/-- `medium_impact_patterns` of `_assess_impact` (comparison.py lines 438-440). -/
def medium_impact_patterns : List String :=
  ["audio", "sound", "voice", "volume", "comm", "sensitivity"]

/-- `ConfigComparator._assess_impact`: pure, total, first matching rule
wins.  The `old_value`/`new_value` arguments are part of the Python
signature but are never read by the body. -/

def assess_impact (setting_name : String) (old_value new_value : Value)
    (category : String) : String :=
  let setting_lower := pyLower setting_name
  if joystick_patterns.any (fun pat => strIn pat setting_lower) then "IGNORED"
  else if high_impact_patterns.any (fun pat => strIn pat setting_lower) then "HIGH"
  else if medium_impact_patterns.any (fun pat => strIn pat setting_lower) then "MEDIUM"
  else if category == "DCS" && strIn "option" setting_lower then "MEDIUM"
  else "LOW"

-- ### The diff engine (`ConfigComparator._compare_configs`)

/-- One `ConfigChange` dataclass instance (comparison.py lines 27-37).
`old_value`/`new_value` are `Value.null` when the Python code would store
`None` — Python does not distinguish an absent value from `None`. -/

structure ConfigChange where
  file_path : String
  setting_name : String
  old_value : Value
  new_value : Value
  change_type : String
  category : String
  impact_level : String
  description : String

/-- The union of the two key sets, in a fixed iteration order (keys of
`config1` first, then the new keys of `config2`).  Python iterates over
`set(config1.keys()) | set(config2.keys())`, whose order is arbitrary
within a run; every property proved below is order-insensitive. -/

def unionKeys (c1 c2 : List (String × Value)) : List String :=
  c1.map Prod.fst ++ (c2.map Prod.fst).filter (fun k => !(pyHasKey c1 k))

/-- Fuel-indexed `ConfigComparator._compare_configs`: for every key of the
union, emit `added` / `removed` / nothing / recurse into two dicts /
`modified`, exactly as comparison.py lines 364-414. -/

def diffGo : Nat → List (String × Value) → List (String × Value) →
    String → String → List ConfigChange
  | 0, _, _, _, _ => []
  | f + 1, config1, config2, file_path, category =>
    (unionKeys config1 config2).flatMap fun key =>
      match pyLookup config1 key, pyLookup config2 key with
      | none, some new_value =>
        [⟨file_path, key, .null, new_value, "added", category,
          assess_impact key .null new_value category, ""⟩]
      | some old_value, none =>
        [⟨file_path, key, old_value, .null, "removed", category,
          assess_impact key old_value .null category, ""⟩]
      | some old_value, some new_value =>
        if pyEq old_value new_value then []
        else
          match old_value, new_value with
          | .dict d1, .dict d2 =>
            diffGo f d1 d2 (file_path ++ "::" ++ key) category
          | _, _ =>
            [⟨file_path, key, old_value, new_value, "modified", category,
              assess_impact key old_value new_value category, ""⟩]
      | none, none => []


/-- `ConfigComparator._compare_configs` with provably sufficient fuel. -/
def compare_configs (config1 config2 : List (String × Value))
    (file_path category : String) : List ConfigChange :=
  diffGo (vsizeE config1 + vsizeE config2) config1 config2 file_path category

/-- The body of one key's iteration of `_compare_configs` (at recursion
fuel `f`); `diffGo (f+1) c1 c2 p cat` is exactly
`(unionKeys c1 c2).flatMap (diffKeyBody f c1 c2 p cat)`. -/

def diffKeyBody (f : Nat) (config1 config2 : List (String × Value))
    (file_path category key : String) : List ConfigChange :=
  match pyLookup config1 key, pyLookup config2 key with
  | none, some new_value =>
    [⟨file_path, key, .null, new_value, "added", category,
      assess_impact key .null new_value category, ""⟩]
  | some old_value, none =>
    [⟨file_path, key, old_value, .null, "removed", category,
      assess_impact key old_value .null category, ""⟩]
  | some old_value, some new_value =>
    if pyEq old_value new_value then []
    else
      match old_value, new_value with
      | .dict d1, .dict d2 =>
        diffGo f d1 d2 (file_path ++ "::" ++ key) category
      | _, _ =>
        [⟨file_path, key, old_value, new_value, "modified", category,
          assess_impact key old_value new_value category, ""⟩]
  | none, none => []


/-- The `added` records of a change list. -/
def addedOf (l : List ConfigChange) : List ConfigChange :=
  l.filter fun c => c.change_type == "added"


/-- The `removed` records of a change list. -/
def removedOf (l : List ConfigChange) : List ConfigChange :=
  l.filter fun c => c.change_type == "removed"

/-- Swap the roles of `old_value` and `new_value` in a change record,
flipping `added` and `removed`. -/

def swapAR (c : ConfigChange) : ConfigChange :=
  { c with
    old_value := c.new_value
    new_value := c.old_value
    change_type :=
      if c.change_type == "added" then "removed"
      else if c.change_type == "removed" then "added"
      else c.change_type }


-- ### A decidable well-formedness checker (used to discharge `WfE`
-- hypotheses on concrete inputs)

/-- Boolean membership of a string in a list. -/
def memStr (k : String) : List String → Bool
  | [] => false
  | x :: xs => k == x || memStr k xs


def nodupKeys : List String → Bool
  | [] => true
  | k :: ks => !(memStr k ks) && nodupKeys ks


mutual

/-- Fuel-indexed check that every dict at any depth has distinct keys. -/
def wfB : Nat → Value → Bool
  | 0, _ => false
  | f + 1, v =>
    match v with
    | .list [] => true
    | .list (x :: xs) => wfB f x && wfB f (.list xs)
    | .dict d => nodupKeys (d.map Prod.fst) && wfEntsB f d
    | _ => true

/-- Fuel-indexed check of a dict's entries. -/
def wfEntsB : Nat → List (String × Value) → Bool
  | 0, _ => false
  | _ + 1, [] => true
  | f + 1, (_, v) :: rest => wfB f v && wfEntsB f rest

end


-- ### The service-state differ (`ConfigComparator._compare_services`)

/-- Generic association-list lookup (Python `d.get(name)`). -/
def alookup {α : Type} : List (String × α) → String → Option α
  | [], _ => none
  | (k, v) :: rest, key => if k == key then some v else alookup rest key

structure ServiceInfo where
  display_name : Option String
  startup_type : Option String
  state : Option String
deriving DecidableEq

/-- The change dicts built by `_compare_services`, as a tagged variant
(the Python code tags them with a `type` field). -/

inductive ServiceChange where
  | service_added (service_name : String) (new_state : ServiceInfo)
  | service_removed (service_name : String) (old_state : ServiceInfo)
  | startup_type_changed (service_name : String)
      (old_startup_type new_startup_type : Option String) (display_name : String)
  | state_changed (service_name : String)
      (old_state new_state : Option String) (display_name : String)
deriving DecidableEq


def ServiceChange.serviceName : ServiceChange → String
  | .service_added n _ => n
  | .service_removed n _ => n
  | .startup_type_changed n _ _ _ => n
  | .state_changed n _ _ _ => n


def ServiceChange.isStartupTypeChanged : ServiceChange → Bool
  | .startup_type_changed .. => true
  | _ => false


def ServiceChange.isStateChanged : ServiceChange → Bool
  | .state_changed .. => true
  | _ => false


/-- Union of the service-name sets, keys of `services1` first. -/
def svcUnionKeys (s1 s2 : List (String × ServiceInfo)) : List String :=
  s1.map Prod.fst ++ (s2.map Prod.fst).filter (fun k => !(alookup s1 k).isSome)

/-- The records one service name contributes (comparison.py lines 482-524):
missing on one side → added/removed; otherwise a startup-type record when
the startup types differ and, independently, a run-state record when the
states differ.  When both differ Python appends the run-state record
first, then the startup-type record. -/

def svcBody (services1 services2 : List (String × ServiceInfo))
    (service_name : String) : List ServiceChange :=
  match alookup services1 service_name, alookup services2 service_name with
  | none, some svc2 => [.service_added service_name svc2]
  | some svc1, none => [.service_removed service_name svc1]
  | some svc1, some svc2 =>
    (if svc1.state ≠ svc2.state then
      [.state_changed service_name svc1.state svc2.state
        (svc1.display_name.getD service_name)]
     else []) ++
    (if svc1.startup_type ≠ svc2.startup_type then
      [.startup_type_changed service_name svc1.startup_type svc2.startup_type
        (svc1.display_name.getD service_name)]
     else [])
  | none, none => []

/-- `ConfigComparator._compare_services` on two already-loaded service
dictionaries. -/

def compare_services (services1 services2 : List (String × ServiceInfo)) :
    List ServiceChange :=
  (svcUnionKeys services1 services2).flatMap (svcBody services1 services2)

def isPyWs (c : Char) : Bool :=
  c == ' ' || c == '\t' || c == '\n' || c == '\r' ||
  c == Char.ofNat 11 || c == Char.ofNat 12


/-- Python `s.strip()`. -/
def stripChars (cs : List Char) : List Char :=
  ((cs.dropWhile isPyWs).reverse.dropWhile isPyWs).reverse


/-- Python `s.strip()` on `String`. -/
def pyStrip (s : String) : String :=
  ⟨stripChars s.data⟩


def isDigitChar (c : Char) : Bool :=
  '0' ≤ c && c ≤ '9'


/-- Start codepoints of the 66 runs of ten consecutive Unicode decimal
digits (category `Nd`, digit values 0-9 in order) of Unicode 14.0.0, the
database of the CPython in use; these are the characters `int()` and
`float()` accept as digits. -/
def ndRunStarts : List Nat :=
  [48, 1632, 1776, 1984, 2406, 2534, 2662, 2790, 2918, 3046, 3174, 3302,
   3430, 3558, 3664, 3792, 3872, 4160, 4240, 6112, 6160, 6470, 6608, 6784,
   6800, 6992, 7088, 7232, 7248, 42528, 43216, 43264, 43472, 43504, 43600, 44016,
   65296, 66720, 68912, 69734, 69872, 69942, 70096, 70384, 70736, 70864, 71248, 71360,
   71472, 71904, 72016, 72784, 73040, 73120, 92768, 92864, 93008, 120782, 120792, 120802,
   120812, 120822, 123200, 123632, 125264, 130032]

/-- Codepoints with the Unicode digit property that are not decimal
digits (superscripts, Ethiopic and other numbering digits, circled
digits, ...): `str.isdigit` accepts them but `int()`/`float()` raise
`ValueError` on them. -/
def nonDecDigitCodes : List Nat :=
  [178, 179, 185, 4969, 4970, 4971, 4972, 4973, 4974, 4975, 4976, 4977,
   6618, 8304, 8308, 8309, 8310, 8311, 8312, 8313, 8320, 8321, 8322, 8323,
   8324, 8325, 8326, 8327, 8328, 8329, 9312, 9313, 9314, 9315, 9316, 9317,
   9318, 9319, 9320, 9332, 9333, 9334, 9335, 9336, 9337, 9338, 9339, 9340,
   9352, 9353, 9354, 9355, 9356, 9357, 9358, 9359, 9360, 9450, 9461, 9462,
   9463, 9464, 9465, 9466, 9467, 9468, 9469, 9471, 10102, 10103, 10104, 10105,
   10106, 10107, 10108, 10109, 10110, 10112, 10113, 10114, 10115, 10116, 10117, 10118,
   10119, 10120, 10122, 10123, 10124, 10125, 10126, 10127, 10128, 10129, 10130, 68160,
   68161, 68162, 68163, 69216, 69217, 69218, 69219, 69220, 69221, 69222, 69223, 69224,
   69714, 69715, 69716, 69717, 69718, 69719, 69720, 69721, 69722, 127232, 127233, 127234,
   127235, 127236, 127237, 127238, 127239, 127240, 127241, 127242]

/-- Decimal value of a character, when it is a Unicode decimal digit
(`unicodedata.decimal`): the position inside its run of ten. -/
def charDecVal (c : Char) : Option Nat :=
  ndRunStarts.findSome? fun s =>
    if s ≤ c.toNat ∧ c.toNat ≤ s + 9 then some (c.toNat - s) else none

/-- One character of Python `str.isdigit()`: a decimal digit or a
non-decimal digit-property character. -/
def isPyDigitChar (c : Char) : Bool :=
  (charDecVal c).isSome || nonDecDigitCodes.contains c.toNat

/-- Python `s.isdigit()`: non-empty and every character has the digit
property — which is wider than what `int()`/`float()` accept, the
mismatch behind the parsers' numeric-coercion failure path. -/
def pyIsDigit (cs : List Char) : Bool :=
  !cs.isEmpty && cs.all isPyDigitChar

/-- Python `int(s)` on an `isdigit`-true string: succeeds exactly when
every character is a decimal digit, composing their decimal values in
base 10; `none` models `ValueError` (on a non-decimal digit). -/
def decDigitsVal (cs : List Char) : Option Nat :=
  cs.foldl
    (fun acc c =>
      match acc, charDecVal c with
      | some a, some v => some (a * 10 + v)
      | _, _ => none)
    (some 0)


/-- Numeric value of a digit string (Python `int(s)` on a digit string). -/
def digitsToNat (cs : List Char) : Nat :=
  cs.foldl (fun acc c => acc * 10 + (c.toNat - '0'.toNat)) 0


/-- Python `s.replace(".", "")`. -/
def removeDots (cs : List Char) : List Char :=
  cs.filter (fun c => !(c == '.'))


/-- Python `s.count(".")`. -/
def countDots (cs : List Char) : Nat :=
  (cs.filter (fun c => c == '.')).length


def memChar (c : Char) (cs : List Char) : Bool :=
  cs.any (fun x => x == c)

/-- Python `s.startswith(q) and s.endswith(q)` for a one-character quote
(true for the single character `q` itself, as in Python). -/

def quotedBy (q : Char) (cs : List Char) : Bool :=
  cs.head? == some q && cs.getLast? == some q


/-- Python `s[1:-1]`. -/
def stripEnds (cs : List Char) : List Char :=
  (cs.drop 1).dropLast


def lowerChars (cs : List Char) : List Char :=
  cs.map Char.toLower

/-- The exact rational denoted by a decimal-digits-and-one-dot string
(`float(value)` once it is known to succeed: CPython first maps each
Unicode decimal digit to its value; ℚ models the float exactly at parse
time). Only evaluated under the guard that every non-dot character is a
decimal digit. -/

def decFloat (cs : List Char) : ℚ :=
  let ip := cs.takeWhile (fun c => !(c == '.'))
  let fp := cs.drop (ip.length + 1)
  Rat.divInt ((decDigitsVal (ip ++ fp)).getD 0 : Nat) (10 ^ fp.length)

/-- Signed decimal with optional fraction and exponent, as a rational:
`sgn * digits(ip ++ fp) * 10 ^ (e - |fp|)`. -/

def sciRat (neg : Bool) (ip fp : List Char) (e : Int) : ℚ :=
  let mag : Int := digitsToNat (ip ++ fp)
  let m : Int := if neg then -mag else mag
  let ex : Int := e - fp.length
  if 0 ≤ ex then Rat.divInt (m * 10 ^ ex.toNat) 1
  else Rat.divInt m (10 ^ (-ex).toNat)

/-- Model of Python `float(s)` on ordinary decimal notation: optional
sign, digits with optional fraction, optional exponent, surrounding
whitespace allowed; `none` models `ValueError` (the `inf`/`nan` and
underscore-separator forms are not modelled — no caller produces them). -/

def pyFloat (s : String) : Option ℚ :=
  let cs := stripChars s.data
  let (neg, cs1) :=
    match cs with
    | '+' :: r => (false, r)
    | '-' :: r => (true, r)
    | r => (false, r)
  let ip := cs1.takeWhile isDigitChar
  let cs2 := cs1.drop ip.length
  let (fp, cs3) :=
    match cs2 with
    | '.' :: r => (r.takeWhile isDigitChar, r.drop (r.takeWhile isDigitChar).length)
    | _ => ([], cs2)
  if ip.isEmpty && fp.isEmpty then none
  else
    match cs3 with
    | [] => some (sciRat neg ip fp 0)
    | e :: r =>
      if e == 'e' || e == 'E' then
        let (es, r2) :=
          match r with
          | '+' :: rr => ((1 : Int), rr)
          | '-' :: rr => ((-1 : Int), rr)
          | rr => ((1 : Int), rr)
        let ed := r2.takeWhile isDigitChar
        if ed.isEmpty || !(r2.drop ed.length).isEmpty then none
        else some (sciRat neg ip fp (es * (digitsToNat ed : Int)))
      else none


-- ### `ConfigurationParser.parse_cfg_config` (comparison.py lines 134-171)

/-- Split file content into lines (Python text-mode iteration). -/
def splitNl : List Char → List (List Char)
  | [] => [[]]
  | c :: cs =>
    let r := splitNl cs
    if c == '\n' then [] :: r
    else
      match r with
      | y :: ys => (c :: y) :: ys
      | [] => [[c]]

/-- The stripped key of a `key=value` line (text before the first `=`). -/
def cfgKey (line : List Char) : String :=
  ⟨stripChars (line.takeWhile (fun c => !(c == '=')))⟩

/-- The value text of a `key=value` line: text after the first `=`,
stripped, with one matching pair of double or single quotes removed. -/
def cfgValue (line : List Char) : List Char :=
  let keyPart := line.takeWhile (fun c => !(c == '='))
  let value0 := stripChars (line.drop (keyPart.length + 1))
  if quotedBy '"' value0 then stripEnds value0
  else if quotedBy '\'' value0 then stripEnds value0
  else value0

/-- The value coercion of `parse_cfg_config` (comparison.py lines
155-165): case-insensitive `true`/`false` → Bool; `value.isdigit()` →
`int(value)`, which raises on a non-decimal digit; digits with exactly
one dot → `float(value)`, which likewise raises on a non-decimal digit;
else String. An error aborts the parse: the catch-all at lines 168-169
re-raises `ValueError`. -/
def cfgCoerce (value : List Char) : Except String Value :=
  if lowerChars value == "true".data then .ok (.bool true)
  else if lowerChars value == "false".data then .ok (.bool false)
  else if pyIsDigit value then
    match decDigitsVal value with
    | some n => .ok (.int n)
    | none => .error "Failed to parse CFG file"
  else if pyIsDigit (removeDots value) && countDots value == 1 then
    if (decDigitsVal (removeDots value)).isSome then .ok (.float (decFloat value))
    else .error "Failed to parse CFG file"
  else .ok (.str ⟨value⟩)

/-- Process one line of a `.cfg`/`.ini` file: skip blanks and `#`/`--`
comments; on `key=value` split at the first `=`, strip, unquote, coerce
(fallibly) and insert. -/
def cfgLine (settings : List (String × Value)) (lineRaw : List Char) :
    Except String (List (String × Value)) :=
  let line := stripChars lineRaw
  if line.isEmpty then .ok settings
  else if isPre "#".data line then .ok settings
  else if isPre "--".data line then .ok settings
  else if memChar '=' line then
    match cfgCoerce (cfgValue line) with
    | .ok v => .ok (pyInsert settings (cfgKey line) v)
    | .error e => .error e
  else .ok settings

/-- The line loop; the first coercion error aborts the whole parse. -/
def cfgFold (settings : List (String × Value)) :
    List (List Char) → Except String (List (String × Value))
  | [] => .ok settings
  | l :: ls =>
    match cfgLine settings l with
    | .ok s2 => cfgFold s2 ls
    | .error e => .error e

/-- `ConfigurationParser.parse_cfg_config` on decoded text. -/
def parse_cfg_config (content : String) : Except String (List (String × Value)) :=
  cfgFold [] (splitNl content.data)


-- ### `ConfigurationParser.parse_lua_config` (comparison.py lines 68-123)
-- The two `re.findall` scans are modelled by deterministic scanners that
-- replicate the regexes
--   pattern 1: \["([^"]+)"\]\s*=\s*([^,\n]+),?
--   pattern 2: \["([^"]+)"\]\s*=\s*\{([^}]+)\}
-- including the one place backtracking matters: `\s*` yields trailing
-- non-newline whitespace back to the greedy `[^,\n]+` when the character
-- after the whitespace run cannot start the value group.
-- (`re.DOTALL` on pattern 2 is irrelevant: the pattern contains no `.`.)

/-- `([^"]+)"` — a non-empty run of non-quote characters closed by `"`. -/
def takeName (l : List Char) : Option (List Char × List Char) :=
  let n := l.takeWhile (fun c => !(c == '"'))
  match l.drop n.length with
  | '"' :: rest => if n.isEmpty then none else some (n, rest)
  | _ => none


/-- Remove the maximal `'\n'`-suffix. -/
def dropNlSuffix (cs : List Char) : List Char :=
  (cs.reverse.dropWhile (fun c => c == '\n')).reverse

/-- `\s*([^,\n]+...` — the position where the value group starts, after
the backtracking described above, or `none` when the group cannot match. -/

def luaValueRegion (t : List Char) : Option (List Char) :=
  let ws := t.takeWhile isPyWs
  let rest := t.drop ws.length
  let backtracked :=
    match dropNlSuffix ws with
    | [] => none
    | core => some (ws.drop (core.length - 1) ++ rest)
  match rest with
  | c :: _ => if c == ',' || c == '\n' then backtracked else some rest
  | [] => backtracked

/-- One match of pattern 1 starting exactly at the head of the input;
returns the two captures and the remaining input. -/

def luaMatch1 (l : List Char) : Option ((String × String) × List Char) :=
  match l with
  | '[' :: '"' :: rest =>
    match takeName rest with
    | none => none
    | some (name, rest1) =>
      match rest1 with
      | ']' :: rest2 =>
        match rest2.dropWhile isPyWs with
        | '=' :: rest4 =>
          match luaValueRegion rest4 with
          | none => none
          | some region =>
            let v := region.takeWhile (fun c => !(c == ',') && !(c == '\n'))
            let rest6 := region.drop v.length
            let rest7 :=
              match rest6 with
              | ',' :: r => r
              | r => r
            some ((⟨name⟩, ⟨v⟩), rest7)
        | _ => none
      | _ => none
  | _ => none


/-- One match of pattern 2 starting exactly at the head of the input. -/
def luaMatch2 (l : List Char) : Option ((String × String) × List Char) :=
  match l with
  | '[' :: '"' :: rest =>
    match takeName rest with
    | none => none
    | some (name, rest1) =>
      match rest1 with
      | ']' :: rest2 =>
        match rest2.dropWhile isPyWs with
        | '=' :: rest4 =>
          match rest4.dropWhile isPyWs with
          | b :: rest5 =>
            if b == Char.ofNat 123 then
              let inner := rest5.takeWhile (fun c => !(c == Char.ofNat 125))
              if inner.isEmpty then none
              else
                match rest5.drop inner.length with
                | b2 :: rest6 =>
                  if b2 == Char.ofNat 125 then some ((⟨name⟩, ⟨inner⟩), rest6)
                  else none
                | [] => none
            else none
          | [] => none
        | _ => none
      | _ => none
  | _ => none

/-- `re.findall` left-to-right non-overlapping scan: try a match at every
position, resuming after each match.  The fuel is the input length, which
suffices because every step consumes at least one character. -/

def scanGo (m : List Char → Option ((String × String) × List Char)) :
    Nat → List Char → List (String × String)
  | 0, _ => []
  | _ + 1, [] => []
  | f + 1, c :: cs =>
    match m (c :: cs) with
    | some (kv, rest) => kv :: scanGo m f rest
    | none => scanGo m f cs


/-- `re.findall(pattern 1, content)`. -/
def findall1 (cs : List Char) : List (String × String) :=
  scanGo luaMatch1 cs.length cs


/-- `re.findall(pattern 2, content)`. -/
def findall2 (cs : List Char) : List (String × String) :=
  scanGo luaMatch2 cs.length cs

/-- Top-level value coercion of `parse_lua_config` (lines 83-97):
`true`/`false` (case-sensitive) → Bool, double-quoted → unquoted String,
`value.isdigit()` → `int(value)` — which raises on a non-decimal digit
such as `²` — digits-with-a-dot → `float(value)` — which raises when the
string has more than one dot or a non-decimal digit — else the raw
String. A raise is uncaught inside the loop and aborts the whole parse
(the catch-all at lines 119-120 re-raises `ValueError`). -/

def luaCoerceTop (value : String) : Except String Value :=
  if value == "true" then .ok (.bool true)
  else if value == "false" then .ok (.bool false)
  else if quotedBy '"' value.data then .ok (.str ⟨stripEnds value.data⟩)
  else if pyIsDigit value.data then
    match decDigitsVal value.data with
    | some n => .ok (.int n)
    | none => .error "Failed to parse Lua file"
  else if memChar '.' value.data && pyIsDigit (removeDots value.data) then
    if countDots value.data == 1 && (decDigitsVal (removeDots value.data)).isSome then
      .ok (.float (decFloat value.data))
    else .error "Failed to parse Lua file"
  else .ok (.str value)

/-- Nested-table value coercion (lines 107-116): only `true`/`false`
(case-sensitive) and double-quoted strings are converted; every other
value — all-digit and decimal forms included — stays the raw string. -/

def luaCoerceInner (inner_value : String) : Value :=
  if inner_value == "true" then .bool true
  else if inner_value == "false" then .bool false
  else if quotedBy '"' inner_value.data then .str ⟨stripEnds inner_value.data⟩
  else .str inner_value

/-- The flat pass over pattern-1 matches; the first failing coercion
aborts the parse (Python: the uncaught `float()` error propagates to the
catch-all, which re-raises `ValueError`). -/

def luaFlatFold (acc : List (String × Value)) :
    List (String × String) → Except String (List (String × Value))
  | [] => .ok acc
  | (setting, value) :: rest =>
    match luaCoerceTop (pyStrip value) with
    | .ok v => luaFlatFold (pyInsert acc setting v) rest
    | .error e => .error e


/-- The nested pass over one table body (inner entries via pattern 1). -/
def luaInnerFold (acc : List (String × Value)) :
    List (String × String) → List (String × Value)
  | [] => acc
  | (setting, value) :: rest =>
    luaInnerFold (pyInsert acc setting (luaCoerceInner (pyStrip value))) rest


/-- `ConfigurationParser.parse_lua_config` on decoded text. -/
def parse_lua_config (content : String) : Except String (List (String × Value)) :=
  match luaFlatFold [] (findall1 content.data) with
  | .error e => .error e
  | .ok flat =>
    .ok ((findall2 content.data).foldl
      (fun st kv => pyInsert st kv.1 (.dict (luaInnerFold [] (findall1 kv.2.data))))
      flat)


-- ### `ConfigurationParser.parse_json_config` (comparison.py lines 125-132)
-- The decoding itself is Python's `json` library; it is modelled here by
-- a recursive-descent JSON reader producing a `Value` (objects keep the
-- last binding of a duplicated key, as `json.load` does; a `\uXXXX`
-- surrogate pair is out of scope).

def isJWs (c : Char) : Bool :=
  c == ' ' || c == '\t' || c == '\n' || c == '\r'


def skipJWs (cs : List Char) : List Char :=
  cs.dropWhile isJWs


def hexVal (c : Char) : Option Nat :=
  let n := c.toNat
  if 48 ≤ n ∧ n ≤ 57 then some (n - 48)
  else if 97 ≤ n ∧ n ≤ 102 then some (n - 87)
  else if 65 ≤ n ∧ n ≤ 70 then some (n - 55)
  else none

/-- JSON string body after the opening quote: returns the decoded
characters and the input after the closing quote. -/

def jStrGo : Nat → List Char → List Char → Option (List Char × List Char)
  | 0, _, _ => none
  | f + 1, acc, cs =>
    match cs with
    | [] => none
    | c :: rest =>
      if c == '"' then some (acc.reverse, rest)
      else if c == '\\' then
        match rest with
        | [] => none
        | e :: rest2 =>
          if e == '"' then jStrGo f ('"' :: acc) rest2
          else if e == '\\' then jStrGo f ('\\' :: acc) rest2
          else if e == '/' then jStrGo f ('/' :: acc) rest2
          else if e == 'b' then jStrGo f (Char.ofNat 8 :: acc) rest2
          else if e == 'f' then jStrGo f (Char.ofNat 12 :: acc) rest2
          else if e == 'n' then jStrGo f ('\n' :: acc) rest2
          else if e == 'r' then jStrGo f ('\r' :: acc) rest2
          else if e == 't' then jStrGo f ('\t' :: acc) rest2
          else if e == 'u' then
            match rest2 with
            | h1 :: h2 :: h3 :: h4 :: rest3 =>
              match hexVal h1, hexVal h2, hexVal h3, hexVal h4 with
              | some a, some b, some c2, some d =>
                jStrGo f (Char.ofNat (((a * 16 + b) * 16 + c2) * 16 + d) :: acc) rest3
              | _, _, _, _ => none
            | _ => none
          else none
      else if c.toNat < 32 then none
      else jStrGo f (c :: acc) rest

/-- The JSON number token `-?(0|[1-9]\d*)(\.\d+)?([eE][-+]?\d+)?`;
no fraction and no exponent gives `int`, otherwise `float`. -/

def jNum (cs : List Char) : Option (Value × List Char) :=
  let (neg, cs1) :=
    match cs with
    | '-' :: r => (true, r)
    | r => (false, r)
  match cs1 with
  | [] => none
  | c :: _ =>
    if !(isDigitChar c) then none
    else
      let ip := if c == '0' then ['0'] else cs1.takeWhile isDigitChar
      let cs2 := cs1.drop ip.length
      let (fp, cs3) :=
        match cs2 with
        | '.' :: r =>
          let d := r.takeWhile isDigitChar
          if d.isEmpty then (([] : List Char), cs2) else (d, r.drop d.length)
        | _ => ([], cs2)
      let (ep, cs4) :=
        match cs3 with
        | e :: r =>
          if e == 'e' || e == 'E' then
            let (es, r2) :=
              match r with
              | '+' :: rr => ((1 : Int), rr)
              | '-' :: rr => ((-1 : Int), rr)
              | rr => ((1 : Int), rr)
            let d := r2.takeWhile isDigitChar
            if d.isEmpty then ((none : Option Int), cs3)
            else (some (es * (digitsToNat d : Int)), r2.drop d.length)
          else (none, cs3)
        | [] => (none, cs3)
      match fp, ep with
      | [], none =>
        some (.int (if neg then -(digitsToNat ip : Int) else (digitsToNat ip : Int)), cs4)
      | _, _ => some (.float (sciRat neg ip fp (ep.getD 0)), cs4)


mutual

/-- One JSON value (after optional leading whitespace). -/
def jVal : Nat → List Char → Option (Value × List Char)
  | 0, _ => none
  | f + 1, cs0 =>
    let cs := skipJWs cs0
    match cs with
    | [] => none
    | c :: rest =>
      if c == '"' then
        match jStrGo (rest.length + 1) [] rest with
        | some (s, r) => some (.str ⟨s⟩, r)
        | none => none
      else if c == '[' then
        match skipJWs rest with
        | ']' :: r3 => some (.list [], r3)
        | r2 => jArrGo f r2 []
      else if c == Char.ofNat 123 then
        match skipJWs rest with
        | c2 :: r3 =>
          if c2 == Char.ofNat 125 then some (.dict [], r3)
          else jObjGo f (c2 :: r3) []
        | [] => none
      else if isPre "true".data cs then some (.bool true, cs.drop 4)
      else if isPre "false".data cs then some (.bool false, cs.drop 5)
      else if isPre "null".data cs then some (.null, cs.drop 4)
      else jNum cs

/-- Array elements after `[`. -/
def jArrGo : Nat → List Char → List Value → Option (Value × List Char)
  | 0, _, _ => none
  | f + 1, cs, acc =>
    match jVal f cs with
    | none => none
    | some (v, r) =>
      match skipJWs r with
      | ',' :: r2 => jArrGo f r2 (v :: acc)
      | ']' :: r2 => some (.list (v :: acc).reverse, r2)
      | _ => none

/-- Object members after `{` (duplicate keys: last write wins). -/
def jObjGo : Nat → List Char → List (String × Value) → Option (Value × List Char)
  | 0, _, _ => none
  | f + 1, cs, acc =>
    match skipJWs cs with
    | c :: rest =>
      if c == '"' then
        match jStrGo (rest.length + 1) [] rest with
        | some (k, r) =>
          match skipJWs r with
          | ':' :: r2 =>
            match jVal f r2 with
            | some (v, r3) =>
              let acc2 := pyInsert acc ⟨k⟩ v
              match skipJWs r3 with
              | ',' :: r4 => jObjGo f r4 acc2
              | c2 :: r4 =>
                if c2 == Char.ofNat 125 then some (.dict acc2, r4) else none
              | [] => none
            | none => none
          | _ => none
        | none => none
      else none
    | [] => none

end

/-- Model of `json.load` on decoded text: one JSON value, whitespace
around it, nothing after it. -/

def jsonParse (s : String) : Option Value :=
  match jVal (2 * s.data.length + 2) s.data with
  | some (v, rest) => if (skipJWs rest).isEmpty then some v else none
  | none => none

-- ### `ConfigurationParser.parse_file` (comparison.py lines 173-191)

/-- Dispatch on the (lowercased) extension.  `content` is the result of
decoding the file's bytes as UTF-8 text: `none` means the bytes do not
decode (the `open`/`read` raises), which each parser turns into its
`ValueError`; the unknown-extension branch swallows the error and returns
an empty dict. -/

def parse_file (extension : String) (content : Option String) : Except String Value :=
  if extension == ".lua" then
    match content with
    | none => .error "Failed to parse Lua file"
    | some s =>
      match parse_lua_config s with
      | .ok d => .ok (.dict d)
      | .error e => .error e
  else if extension == ".json" then
    match content with
    | none => .error "Failed to parse JSON file"
    | some s =>
      match jsonParse s with
      | some v => .ok v
      | none => .error "Failed to parse JSON file"
  else if extension == ".cfg" || extension == ".ini" then
    match content with
    | none => .error "Failed to parse CFG file"
    | some s =>
      match parse_cfg_config s with
      | .ok d => .ok (.dict d)
      | .error e => .error e
  else
    match content with
    | none => .ok (.dict [])
    | some s =>
      .ok (.dict [("_raw_content", .str s), ("_content_length", .int (s.length : Int))])

structure CsvRow where
  application : Option String
  timeStamp : Option String
  avgFps : Option String
  onePercentLow : Option String
  minFps : Option String
  maxFps : Option String
  timeMs : Option String
  resolution : Option String
  gpu0Util : Option String
  gpu0Temp : Option String
  cpuUtil : Option String
  cpuTemp : Option String
deriving DecidableEq

/-- `safe_float` of `_parse_csv`: `float(value) if value and value.strip()
else 0.0`, with any conversion error also giving `0.0`. -/

def safe_float (v : Option String) : ℚ :=
  match v with
  | none => 0
  | some s => if s = "" then 0 else if pyStrip s = "" then 0 else (pyFloat s).getD 0

/-- `FrameViewSession` (frameview_integration.py lines 15-45), with the
timestamp as a rational obtained from an order-preserving encoding of the
parsed `datetime` (claims about it use only the ordering). -/

structure FrameViewSession where
  timestamp : ℚ
  application : String
  avg_fps : ℚ
  one_percent_low : ℚ
  min_fps : ℚ
  max_fps : ℚ
  session_duration_ms : ℚ
  resolution : String
  gpu_util : ℚ
  gpu_temp : ℚ
  cpu_util : ℚ
  cpu_temp : ℚ
deriving DecidableEq


/-- `session_duration_minutes` property: `ms / 1000 / 60`. -/
def session_duration_minutes (s : FrameViewSession) : ℚ :=
  s.session_duration_ms / 1000 / 60

/-- `performance_stability_ratio` property: `low / avg` when `avg > 0`,
else `0`. -/

def performance_stability_ratio (s : FrameViewSession) : ℚ :=
  if 0 < s.avg_fps then s.one_percent_low / s.avg_fps else 0


def leapYear (y : Nat) : Bool :=
  y % 4 == 0 && (!(y % 100 == 0) || y % 400 == 0)


def daysInMonth (y m : Nat) : Nat :=
  if m == 2 then (if leapYear y then 29 else 28)
  else if m == 4 || m == 6 || m == 9 || m == 11 then 30
  else 31

/-- Order-preserving encoding of a calendar date-time (the factors
strictly dominate each field's range, so the encoding is monotone in the
lexicographic field order, like `datetime` comparison). -/

def tsEncode (y m d h mi s : Nat) : Nat :=
  ((((y * 13 + m) * 32 + d) * 24 + h) * 60 + mi) * 60 + s

/-- `datetime.strptime(s, "%Y-%m-%dT%H%M%S")` on the canonical 17-character
FrameView form, with the field-range and day-of-month validation that
`strptime`/`datetime` perform; `none` models `ValueError`. -/

def strpTime (s : String) : Option ℚ :=
  match s.data with
  | [y1, y2, y3, y4, c1, m1, m2, c2, d1, d2, ct, h1, h2, mi1, mi2, s1, s2] =>
    if c1 == '-' && c2 == '-' && ct == 'T' &&
       [y1, y2, y3, y4, m1, m2, d1, d2, h1, h2, mi1, mi2, s1, s2].all isDigitChar then
      let y := digitsToNat [y1, y2, y3, y4]
      let m := digitsToNat [m1, m2]
      let d := digitsToNat [d1, d2]
      let h := digitsToNat [h1, h2]
      let mi := digitsToNat [mi1, mi2]
      let sec := digitsToNat [s1, s2]
      if 1 ≤ m && m ≤ 12 && 1 ≤ d && d ≤ daysInMonth y m &&
         h ≤ 23 && mi ≤ 59 && sec ≤ 59 then
        some (Rat.divInt (tsEncode y m d h mi sec) 1)
      else none
    else none
  | _ => none

/-- Build the session object from one row (lines 104-118): every metric
goes through `safe_float`, so a non-numeric or blank field is silently
substituted with `0.0`. -/

def mkSession (ts : ℚ) (row : CsvRow) : FrameViewSession :=
  { timestamp := ts
    application := row.application.getD ""
    avg_fps := safe_float row.avgFps
    one_percent_low := safe_float row.onePercentLow
    min_fps := safe_float row.minFps
    max_fps := safe_float row.maxFps
    session_duration_ms := safe_float row.timeMs
    resolution := row.resolution.getD ""
    gpu_util := safe_float row.gpu0Util
    gpu_temp := safe_float row.gpu0Temp
    cpu_util := safe_float row.cpuUtil
    cpu_temp := safe_float row.cpuTemp }

/-- The row loop of `FrameViewParser._parse_csv` (lines 85-128): filter to
`DCS.exe` rows, skip rows with an empty or unparsable timestamp, then
keep the session only when avg FPS, duration and 1% low are all
positive. -/

def collectSessions : List CsvRow → List FrameViewSession
  | [] => []
  | row :: rest =>
    if pyStrip (row.application.getD "") ≠ "DCS.exe" then collectSessions rest
    else if pyStrip (row.timeStamp.getD "") = "" then collectSessions rest
    else
      match strpTime (pyStrip (row.timeStamp.getD "")) with
      | none => collectSessions rest
      | some ts =>
        if 0 < (mkSession ts row).avg_fps ∧
           0 < (mkSession ts row).session_duration_ms ∧
           0 < (mkSession ts row).one_percent_low
        then mkSession ts row :: collectSessions rest
        else collectSessions rest


/-- The sort key `lambda s: s.timestamp`. -/
def tsLe (a b : FrameViewSession) : Prop :=
  a.timestamp ≤ b.timestamp


instance : DecidableRel tsLe :=
  fun a b => inferInstanceAs (Decidable (a.timestamp ≤ b.timestamp))


instance : IsTotal FrameViewSession tsLe :=
  ⟨fun a b => le_total a.timestamp b.timestamp⟩


instance : IsTrans FrameViewSession tsLe :=
  ⟨fun _ _ _ h1 h2 => le_trans h1 h2⟩

/-- `FrameViewParser._parse_csv`: collect the valid rows, then
`sessions.sort(key=lambda s: s.timestamp)` (a stable sort, modelled by
insertion sort). -/

def parse_csv (rows : List CsvRow) : List FrameViewSession :=
  List.insertionSort tsLe (collectSessions rows)

-- ### Correlation (`find_sessions_near_backup` / `get_best_session_for_backup`)

/-- `find_sessions_near_backup` (lines 139-158): sessions within
`window_minutes` of the backup timestamp (inclusive) with duration at
least `min_duration_seconds * 1000` ms. -/

def find_sessions_near_backup (sessions : List FrameViewSession)
    (backup_timestamp window_minutes min_duration_seconds : ℚ) :
    List FrameViewSession :=
  sessions.filter fun s =>
    decide (backup_timestamp - window_minutes * 60 ≤ s.timestamp) &&
    decide (s.timestamp ≤ backup_timestamp + window_minutes * 60) &&
    decide (min_duration_seconds * 1000 ≤ s.session_duration_ms)


/-- `session_score` (lines 170-178). -/
def session_score (backup_timestamp window_minutes : ℚ)
    (s : FrameViewSession) : ℚ :=
  let time_diff_minutes := |s.timestamp - backup_timestamp| / 60
  let duration_score := min (session_duration_minutes s) 10
  let time_score := max 0 (1 - time_diff_minutes / window_minutes)
  let stability_bonus := performance_stability_ratio s * (1/10)
  duration_score * (6/10) + time_score * (3/10) + stability_bonus

/-- Python `max(xs, key=f)` keeps the first maximal element: it replaces
the running best only on a strictly greater key. -/

def bestFold (backup_timestamp window_minutes : ℚ) (best : FrameViewSession)
    (xs : List FrameViewSession) : FrameViewSession :=
  xs.foldl
    (fun b s =>
      if session_score backup_timestamp window_minutes b <
         session_score backup_timestamp window_minutes s then s else b)
    best


/-- `get_best_session_for_backup` (lines 160-183). -/
def get_best_session_for_backup (sessions : List FrameViewSession)
    (backup_timestamp window_minutes min_duration_seconds : ℚ) :
    Option FrameViewSession :=
  match find_sessions_near_backup sessions backup_timestamp window_minutes
      min_duration_seconds with
  | [] => none
  | x :: xs => some (bestFold backup_timestamp window_minutes x xs)


def fvRow : CsvRow :=
  ⟨some "DCS.exe", some "2025-10-24T132935", some "60", some "48",
   some "30", some "80", some "300000", some "2880x1700",
   some "90", some "70", some "40", some "60"⟩


def fvSession : FrameViewSession :=
  mkSession (Rat.divInt (tsEncode 2025 10 24 13 29 35) 1) fvRow


def fvBadRow : CsvRow :=
  ⟨some "DCS.exe", some "not-a-timestamp", some "60", some "48",
   some "30", some "80", some "300000", some "2880x1700",
   some "90", some "70", some "40", some "60"⟩


def fvS1 : FrameViewSession :=
  ⟨599400, "DCS.exe", 60, 48, 30, 80, 1200000, "2880x1700", 90, 70, 40, 60⟩


def fvS2 : FrameViewSession :=
  ⟨599940, "DCS.exe", 60, 48, 30, 80, 300000, "2880x1700", 90, 70, 40, 60⟩

-- ### Theorems


-- ### Basic lemmas about lookup, insertion and sizes

theorem pyLookup_mem {d : List (String × Value)} {k : String} {v : Value}
    (h : pyLookup d k = some v) : (k, v) ∈ d := by
  induction d with
  | nil => simp [pyLookup] at h
  | cons kw rest ih =>
    obtain ⟨k', w⟩ := kw
    simp only [pyLookup] at h
    by_cases hk : k' == k
    · simp [hk] at h
      subst h
      have : k' = k := by simpa using hk
      subst this
      exact List.mem_cons_self _ _
    · simp [hk] at h
      exact List.mem_cons_of_mem _ (ih h)


theorem pyLookup_key_mem {d : List (String × Value)} {k : String} {v : Value}
    (h : pyLookup d k = some v) : k ∈ d.map Prod.fst := by
  simpa using List.mem_map_of_mem Prod.fst (pyLookup_mem h)


theorem mem_pyLookup {d : List (String × Value)} {k : String} {v : Value}
    (hnd : (d.map Prod.fst).Nodup) (h : (k, v) ∈ d) : pyLookup d k = some v := by
  induction d with
  | nil => simp at h
  | cons kw rest ih =>
    obtain ⟨k', w⟩ := kw
    rcases List.mem_cons.1 h with h1 | h1
    · obtain ⟨rfl, rfl⟩ := Prod.mk.injEq .. ▸ h1
      simp [pyLookup]
    · have hk : k' ≠ k := by
        rintro rfl
        have : k' ∈ rest.map Prod.fst := by
          simpa using List.mem_map_of_mem Prod.fst h1
        simp only [List.map_cons, List.nodup_cons] at hnd
        exact hnd.1 this
      have : (k' == k) = false := by simpa using hk
      simp only [pyLookup, this, if_neg]
      exact ih (by simpa using (List.nodup_cons.1 (by simpa using hnd)).2) h1


theorem pyLookup_isSome_iff {d : List (String × Value)} {k : String} :
    (pyLookup d k).isSome = true ↔ k ∈ d.map Prod.fst := by
  induction d with
  | nil => simp [pyLookup]
  | cons kw rest ih =>
    obtain ⟨k', w⟩ := kw
    by_cases hk : k' == k
    · have : k' = k := by simpa using hk
      subst this
      simp [pyLookup]
    · have hne : k' ≠ k := by simpa using hk
      simp [pyLookup, hk, ih, hne, Ne.symm hne]


theorem pyLookup_vsize {d : List (String × Value)} {k : String} {v : Value}
    (h : pyLookup d k = some v) : vsize v < vsizeE d := by
  induction d with
  | nil => simp [pyLookup] at h
  | cons kw rest ih =>
    obtain ⟨k', w⟩ := kw
    simp only [pyLookup] at h
    by_cases hk : k' == k
    · simp [hk] at h
      subst h
      simp [vsizeE]
      omega
    · simp [hk] at h
      have := ih h
      simp [vsizeE]
      omega


theorem WfV_dict_entry {d : List (String × Value)} {k : String} {v : Value}
    (hwf : WfV (.dict d)) (h : pyLookup d k = some v) : WfV v := by
  cases hwf with
  | dict _ hnd hall => exact hall _ (pyLookup_mem h)


theorem WfV_dict_nodup {d : List (String × Value)} (hwf : WfV (.dict d)) :
    (d.map Prod.fst).Nodup := by
  cases hwf with
  | dict _ hnd _ => exact hnd


theorem vsize_pos : ∀ v : Value, 1 ≤ vsize v := by
  intro v
  cases v <;> simp only [vsize] <;> omega


theorem vsizeL_pos : ∀ xs : List Value, 1 ≤ vsizeL xs := by
  intro xs
  cases xs <;> simp only [vsizeL] <;> omega


theorem vsizeE_pos : ∀ d : List (String × Value), 1 ≤ vsizeE d := by
  intro d
  rcases d with _ | ⟨⟨k, v⟩, r⟩ <;> simp only [vsizeE] <;> omega


-- ### Fuel adequacy: `pyEqF` is fuel-independent once the fuel reaches
-- the combined node count, so `pyEq` computes CPython's `==` exactly.

theorem pyEq_adq : ∀ n : Nat,
    (∀ a b f g, vsize a + vsize b ≤ n → vsize a + vsize b ≤ f →
      vsize a + vsize b ≤ g → pyEqF f a b = pyEqF g a b) ∧
    (∀ xs ys f g, vsizeL xs + vsizeL ys ≤ n → vsizeL xs + vsizeL ys ≤ f →
      vsizeL xs + vsizeL ys ≤ g → pyEqListF f xs ys = pyEqListF g xs ys) ∧
    (∀ d1 d2 f g, vsizeE d1 + vsizeE d2 ≤ n → vsizeE d1 + vsizeE d2 ≤ f →
      vsizeE d1 + vsizeE d2 ≤ g → pyInclF f d1 d2 = pyInclF g d1 d2) := by
  intro n
  induction n using Nat.strong_induction_on with
  | _ n ih =>
    refine ⟨?_, ?_, ?_⟩
    · intro a b f g hn hf hg
      have ha := vsize_pos a
      have hb := vsize_pos b
      obtain ⟨f', rfl⟩ : ∃ f', f = f' + 1 := ⟨f - 1, by omega⟩
      obtain ⟨g', rfl⟩ : ∃ g', g = g' + 1 := ⟨g - 1, by omega⟩
      cases a <;> cases b <;> simp only [pyEqF]
      case list.list xs ys =>
        have hxs : 1 + vsizeL xs = vsize (.list xs) := by simp [vsize]
        have hys : 1 + vsizeL ys = vsize (.list ys) := by simp [vsize]
        have hlt : vsizeL xs + vsizeL ys < n := by
          simp [vsize] at hn
          omega
        exact (ih (n - 1) (by omega)).2.1 xs ys f' g' (by omega)
          (by simp [vsize] at hf; omega) (by simp [vsize] at hg; omega)
      case dict.dict d1 d2 =>
        have hlt : vsizeE d1 + vsizeE d2 < n := by
          simp [vsize] at hn
          omega
        have hrec := (ih (n - 1) (by omega)).2.2 d1 d2 f' g' (by omega)
          (by simp [vsize] at hf; omega) (by simp [vsize] at hg; omega)
        rw [hrec]
    · intro xs ys f g hn hf hg
      have hxs := vsizeL_pos xs
      have hys := vsizeL_pos ys
      obtain ⟨f', rfl⟩ : ∃ f', f = f' + 1 := ⟨f - 1, by omega⟩
      obtain ⟨g', rfl⟩ : ∃ g', g = g' + 1 := ⟨g - 1, by omega⟩
      cases xs <;> cases ys <;> simp only [pyEqListF]
      case cons.cons x xs y ys =>
        have h1 := vsize_pos x
        have h2 := vsize_pos y
        have h3 := vsizeL_pos xs
        have h4 := vsizeL_pos ys
        simp only [vsizeL] at hn hf hg
        have e1 := (ih (n - 1) (by omega)).1 x y f' g' (by omega) (by omega) (by omega)
        have e2 := (ih (n - 1) (by omega)).2.1 xs ys f' g' (by omega) (by omega) (by omega)
        rw [e1, e2]
    · intro d1 d2 f g hn hf hg
      have hd1 := vsizeE_pos d1
      have hd2 := vsizeE_pos d2
      obtain ⟨f', rfl⟩ : ∃ f', f = f' + 1 := ⟨f - 1, by omega⟩
      obtain ⟨g', rfl⟩ : ∃ g', g = g' + 1 := ⟨g - 1, by omega⟩
      rcases d1 with _ | ⟨⟨k, v⟩, rest⟩
      · simp only [pyInclF]
      · simp only [pyInclF]
        have h1 := vsize_pos v
        have h2 := vsizeE_pos rest
        simp only [vsizeE] at hn hf hg
        have e2 := (ih (n - 1) (by omega)).2.2 rest d2 f' g' (by omega) (by omega) (by omega)
        cases hl : pyLookup d2 k with
        | none => simp [hl, e2]
        | some w =>
          have hw := pyLookup_vsize hl
          have e1 := (ih (n - 1) (by omega)).1 v w f' g' (by omega) (by omega) (by omega)
          simp [hl, e1, e2]


theorem pyEqF_eq_pyEq {a b : Value} {f : Nat} (hf : vsize a + vsize b ≤ f) :
    pyEqF f a b = pyEq a b :=
  (pyEq_adq (vsize a + vsize b)).1 a b f (vsize a + vsize b) le_rfl hf le_rfl


theorem pyInclF_iff {d1 d2 : List (String × Value)} {f : Nat}
    (hf : vsizeE d1 + vsizeE d2 ≤ f) :
    (pyInclF f d1 d2 = true ↔ PyIncl d1 d2) := by
  induction d1 generalizing f with
  | nil =>
    have h2 := vsizeE_pos d2
    obtain ⟨f', rfl⟩ : ∃ f', f = f' + 1 :=
      ⟨f - 1, by simp only [vsizeE] at hf; omega⟩
    simp [pyInclF, PyIncl]
  | cons kv rest ih =>
    obtain ⟨k, v⟩ := kv
    have h1 := vsize_pos v
    have h2 := vsizeE_pos rest
    have h3 := vsizeE_pos d2
    simp only [vsizeE] at hf
    obtain ⟨f', rfl⟩ : ∃ f', f = f' + 1 := ⟨f - 1, by omega⟩
    simp only [pyInclF]
    rw [Bool.and_eq_true]
    constructor
    · rintro ⟨hhead, htail⟩
      intro k' v' hkv
      rcases List.mem_cons.1 hkv with h | h
      · obtain ⟨rfl, rfl⟩ := Prod.mk.injEq .. ▸ h
        cases hl : pyLookup d2 k' with
        | none => rw [hl] at hhead; simp at hhead
        | some w =>
          rw [hl] at hhead
          have hw := pyLookup_vsize hl
          refine ⟨w, rfl, ?_⟩
          rw [← pyEqF_eq_pyEq (f := f') (by omega)]
          simpa using hhead
      · exact (ih (f := f') (by omega)).1 htail k' v' h
    · intro hincl
      constructor
      · obtain ⟨w, hl, hw⟩ := hincl k v (List.mem_cons_self _ _)
        rw [hl]
        have hws := pyLookup_vsize hl
        have : pyEqF f' v w = true := by
          rw [pyEqF_eq_pyEq (f := f') (by omega)]
          exact hw
        simpa using this
      · exact (ih (f := f') (by omega)).2
          fun k' v' h => hincl k' v' (List.mem_cons_of_mem _ h)


theorem pyEqListF_iff {xs ys : List Value} {f : Nat}
    (hf : vsizeL xs + vsizeL ys ≤ f) :
    (pyEqListF f xs ys = true ↔ List.Forall₂ (fun x y => pyEq x y = true) xs ys) := by
  induction xs generalizing ys f with
  | nil =>
    have h2 := vsizeL_pos ys
    obtain ⟨f', rfl⟩ : ∃ f', f = f' + 1 :=
      ⟨f - 1, by simp only [vsizeL] at hf; omega⟩
    cases ys <;> simp [pyEqListF]
  | cons x xs ih =>
    have h1 := vsize_pos x
    have h2 := vsizeL_pos xs
    have h3 := vsizeL_pos ys
    simp only [vsizeL] at hf
    obtain ⟨f', rfl⟩ : ∃ f', f = f' + 1 := ⟨f - 1, by omega⟩
    cases ys with
    | nil => simp [pyEqListF]
    | cons y ys =>
      have h4 := vsize_pos y
      have h5 := vsizeL_pos ys
      simp only [vsizeL] at hf
      simp only [pyEqListF, Bool.and_eq_true, List.forall₂_cons]
      rw [pyEqF_eq_pyEq (f := f') (by omega), ih (f := f') (by omega)]


-- ### The key dict-equality facts behind the symmetry of Python `==`

theorem pyEq_dict_iff {d1 d2 : List (String × Value)} :
    (pyEq (.dict d1) (.dict d2) = true ↔ d1.length = d2.length ∧ PyIncl d1 d2) := by
  have h1 := vsizeE_pos d1
  have h2 := vsizeE_pos d2
  have hstep : pyEq (.dict d1) (.dict d2) =
      ((d1.length == d2.length) && pyInclF (vsizeE d1 + vsizeE d2) d1 d2) := by
    show pyEqF (vsize (Value.dict d1) + vsize (Value.dict d2)) _ _ = _
    have hv : vsize (Value.dict d1) + vsize (Value.dict d2) =
        (1 + vsizeE d1 + vsizeE d2) + 1 := by
      simp only [vsize]
      omega
    rw [hv]
    simp only [pyEqF]
    congr 1
    exact (pyEq_adq (1 + vsizeE d1 + vsizeE d2)).2.2 d1 d2 _ _ (by omega) (by omega) (by omega)
  rw [hstep]
  simp only [Bool.and_eq_true, beq_iff_eq]
  rw [pyInclF_iff le_rfl]


theorem mem_vsizeL {x : Value} {xs : List Value} (h : x ∈ xs) :
    vsize x < vsizeL xs := by
  induction xs with
  | nil => simp at h
  | cons y ys ih =>
    rcases List.mem_cons.1 h with rfl | h
    · simp only [vsizeL]
      have := vsizeL_pos ys
      omega
    · have := ih h
      simp only [vsizeL]
      have := vsize_pos y
      omega


theorem mem_vsizeE {k : String} {v : Value} {d : List (String × Value)}
    (h : (k, v) ∈ d) : vsize v < vsizeE d := by
  induction d with
  | nil => simp at h
  | cons kw rest ih =>
    obtain ⟨k', w⟩ := kw
    rcases List.mem_cons.1 h with h1 | h1
    · obtain ⟨rfl, rfl⟩ := Prod.mk.injEq .. ▸ h1
      simp only [vsizeE]
      have := vsizeE_pos rest
      omega
    · have := ih h1
      simp only [vsizeE]
      have := vsize_pos w
      omega


theorem pyEq_list_iff {xs ys : List Value} :
    (pyEq (.list xs) (.list ys) = true ↔
      List.Forall₂ (fun x y => pyEq x y = true) xs ys) := by
  have h1 := vsizeL_pos xs
  have h2 := vsizeL_pos ys
  have hstep : pyEq (.list xs) (.list ys) =
      pyEqListF (vsizeL xs + vsizeL ys) xs ys := by
    show pyEqF (vsize (Value.list xs) + vsize (Value.list ys)) _ _ = _
    have hv : vsize (Value.list xs) + vsize (Value.list ys) =
        (1 + vsizeL xs + vsizeL ys) + 1 := by
      simp only [vsize]
      omega
    rw [hv]
    simp only [pyEqF]
    exact (pyEq_adq (1 + vsizeL xs + vsizeL ys)).2.1 xs ys _ _ (by omega) (by omega) (by omega)
  rw [hstep]
  rw [pyEqListF_iff le_rfl]


theorem bool_eq_of_iff {a b : Bool} (h : a = true ↔ b = true) : a = b := by
  cases a <;> cases b <;> simp_all


theorem numEqB_comm (a b : Value) : numEqB a b = numEqB b a := by
  unfold numEqB
  cases numVal a with
  | none => cases numVal b <;> rfl
  | some p =>
    cases numVal b with
    | none => rfl
    | some q =>
      apply bool_eq_of_iff
      simp only [beq_iff_eq]
      exact eq_comm


theorem pyEq_str_comm (s t : String) : pyEq (.str s) (.str t) = pyEq (.str t) (.str s) := by
  show (s == t) = (t == s)
  apply bool_eq_of_iff
  simp only [beq_iff_eq]
  exact eq_comm


theorem WfV_list_mem {xs : List Value} (h : WfV (.list xs)) :
    ∀ x ∈ xs, WfV x := by
  cases h with
  | list _ hall => exact hall


theorem WfV_dict_mem {d : List (String × Value)} (h : WfV (.dict d)) :
    ∀ kv ∈ d, WfV kv.2 := by
  cases h with
  | dict _ _ hall => exact hall


theorem forall2_pyEq_symm {xs ys : List Value}
    (hpt : ∀ x ∈ xs, ∀ y ∈ ys, pyEq x y = pyEq y x) :
    (List.Forall₂ (fun x y => pyEq x y = true) xs ys ↔
     List.Forall₂ (fun x y => pyEq x y = true) ys xs) := by
  induction xs generalizing ys with
  | nil => cases ys <;> simp
  | cons x xs ih =>
    cases ys with
    | nil => simp
    | cons y ys =>
      simp only [List.forall₂_cons]
      rw [hpt x (List.mem_cons_self _ _) y (List.mem_cons_self _ _)]
      rw [ih (fun x hx y hy =>
        hpt x (List.mem_cons_of_mem _ hx) y (List.mem_cons_of_mem _ hy))]


theorem pyEq_succ_form (a b : Value) :
    pyEq a b = pyEqF ((vsize a + vsize b - 1) + 1) a b := by
  have ha := vsize_pos a
  have hb := vsize_pos b
  have h : (vsize a + vsize b - 1) + 1 = vsize a + vsize b := by omega
  rw [h]
  rfl


/-- Python `==` is symmetric on well-formed (duplicate-key-free) values. -/
theorem pyEq_symm_aux : ∀ n : Nat, ∀ a b : Value,
    vsize a + vsize b ≤ n → WfV a → WfV b → pyEq a b = pyEq b a := by
  intro n
  induction n using Nat.strong_induction_on with
  | _ n ih =>
    intro a b hn hwa hwb
    have hsym : ∀ e1 e2 : List (String × Value), vsizeE e1 + vsizeE e2 + 2 ≤ n →
        WfV (.dict e1) → WfV (.dict e2) → e1.length = e2.length →
        PyIncl e1 e2 → PyIncl e2 e1 := by
      intro e1 e2 hsize hw1 hw2 hlen hincl
      intro k w hkw
      have hnd1 := WfV_dict_nodup hw1
      have hnd2 := WfV_dict_nodup hw2
      have hsub : (e1.map Prod.fst) ⊆ (e2.map Prod.fst) := by
        intro k' hk'
        obtain ⟨⟨k'', v'⟩, hmem, hfst⟩ := List.mem_map.1 hk'
        obtain ⟨w', hl', _⟩ := hincl k'' v' hmem
        subst hfst
        exact pyLookup_key_mem hl'
      have hperm : (e1.map Prod.fst).Perm (e2.map Prod.fst) :=
        (List.subperm_of_subset hnd1 hsub).perm_of_length_le (by simp [hlen])
      have hkmem : k ∈ e1.map Prod.fst := by
        have : k ∈ e2.map Prod.fst := by
          simpa using List.mem_map_of_mem Prod.fst hkw
        exact hperm.symm.subset this
      obtain ⟨v, hv⟩ := Option.isSome_iff_exists.1 (pyLookup_isSome_iff.2 hkmem)
      have hv1 : (k, v) ∈ e1 := pyLookup_mem hv
      obtain ⟨w', hlw', heq⟩ := hincl k v hv1
      have hww : w' = w := by
        have h2 := mem_pyLookup hnd2 hkw
        rw [h2] at hlw'
        exact (Option.some.injEq .. ▸ hlw').symm
      subst hww
      refine ⟨v, hv, ?_⟩
      have hb1 : vsize v < vsizeE e1 := mem_vsizeE hv1
      have hb2 : vsize w' < vsizeE e2 := mem_vsizeE hkw
      have hwv := WfV_dict_mem hw1 _ hv1
      have hww2 := WfV_dict_mem hw2 _ hkw
      have hcomm := ih (vsize v + vsize w') (by omega) v w' le_rfl hwv hww2
      rw [← hcomm]
      exact heq
    rcases a with _ | b1 | n1 | q1 | s1 | xs | d1 <;>
      rcases b with _ | b2 | n2 | q2 | s2 | ys | d2
    all_goals try rfl
    all_goals try
      (rw [pyEq_succ_form, pyEq_succ_form]
       simp only [pyEqF, numVal]
       try (apply bool_eq_of_iff
            simp only [beq_iff_eq]
            exact eq_comm)
       done)
    · -- list.list
      apply bool_eq_of_iff
      rw [pyEq_list_iff, pyEq_list_iff]
      have hxs := WfV_list_mem hwa
      have hys := WfV_list_mem hwb
      apply forall2_pyEq_symm
      intro x hx y hy
      have hb1 := mem_vsizeL hx
      have hb2 := mem_vsizeL hy
      have hszx : vsize (Value.list xs) = 1 + vsizeL xs := by simp [vsize]
      have hszy : vsize (Value.list ys) = 1 + vsizeL ys := by simp [vsize]
      exact ih (vsize x + vsize y) (by omega) x y le_rfl (hxs x hx) (hys y hy)
    · -- dict.dict
      apply bool_eq_of_iff
      rw [pyEq_dict_iff, pyEq_dict_iff]
      have hsz : vsizeE d1 + vsizeE d2 + 2 ≤ n := by
        simp only [vsize] at hn
        omega
      constructor
      · rintro ⟨hlen, hincl⟩
        exact ⟨hlen.symm, hsym d1 d2 hsz hwa hwb hlen hincl⟩
      · rintro ⟨hlen, hincl⟩
        exact ⟨hlen.symm, hsym d2 d1 (by omega) hwb hwa hlen hincl⟩


theorem pyEq_symm {a b : Value} (hwa : WfV a) (hwb : WfV b) :
    pyEq a b = pyEq b a :=
  pyEq_symm_aux (vsize a + vsize b) a b le_rfl hwa hwb


theorem filter_flatMap {α β : Type} (l : List α) (g : α → List β) (p : β → Bool) :
    (l.flatMap g).filter p = l.flatMap fun a => (g a).filter p := by
  induction l with
  | nil => simp
  | cons a l ih => simp [List.filter_append, ih]


theorem diffGo_succ (f : Nat) (c1 c2 : List (String × Value)) (p cat : String) :
    diffGo (f + 1) c1 c2 p cat =
      (unionKeys c1 c2).flatMap (diffKeyBody f c1 c2 p cat) := rfl


theorem unionKeys_mem {c1 c2 : List (String × Value)} {k : String} :
    k ∈ unionKeys c1 c2 ↔ k ∈ c1.map Prod.fst ∨ k ∈ c2.map Prod.fst := by
  unfold unionKeys
  rw [List.mem_append]
  constructor
  · rintro (h | h)
    · exact Or.inl h
    · exact Or.inr (List.mem_of_mem_filter h)
  · rintro (h | h)
    · exact Or.inl h
    · by_cases h1 : k ∈ c1.map Prod.fst
      · exact Or.inl h1
      · refine Or.inr (List.mem_filter.2 ⟨h, ?_⟩)
        simp only [pyHasKey, Bool.not_eq_eq_eq_not, Bool.not_true,
          Bool.not_eq_true', ← Bool.not_eq_true]
        intro hs
        exact h1 (pyLookup_isSome_iff.1 hs)


theorem unionKeys_nodup {c1 c2 : List (String × Value)}
    (h1 : (c1.map Prod.fst).Nodup) (h2 : (c2.map Prod.fst).Nodup) :
    (unionKeys c1 c2).Nodup := by
  unfold unionKeys
  rw [List.nodup_append]
  refine ⟨h1, h2.filter _, ?_⟩
  intro k hk1 hk2
  have hthis := (List.mem_filter.1 hk2).2
  simp only [pyHasKey, Bool.not_eq_eq_eq_not, Bool.not_true, Bool.not_eq_true',
    ← Bool.not_eq_true] at hthis
  exact hthis (pyLookup_isSome_iff.2 hk1)


theorem unionKeys_swap_perm {c1 c2 : List (String × Value)}
    (h1 : (c1.map Prod.fst).Nodup) (h2 : (c2.map Prod.fst).Nodup) :
    (unionKeys c1 c2).Perm (unionKeys c2 c1) := by
  rw [List.perm_ext_iff_of_nodup (unionKeys_nodup h1 h2) (unionKeys_nodup h2 h1)]
  intro k
  rw [unionKeys_mem, unionKeys_mem, or_comm]


theorem WfE_entry {d : List (String × Value)} {k : String} {dv : List (String × Value)}
    (hwf : WfE d) (h : pyLookup d k = some (.dict dv)) : WfE dv := by
  have := WfV_dict_entry hwf h
  exact this

/-- Per-key swap property: the `added` records one key contributes to
`diff(A, B)` are the old/new-swapped `removed` records it contributes to
`diff(B, A)` (as multisets). -/

theorem diffKey_swap (f : Nat) (c1 c2 : List (String × Value)) (p cat k : String)
    (h1 : WfE c1) (h2 : WfE c2)
    (IH : ∀ e1 e2 : List (String × Value), ∀ p' cat' : String, WfE e1 → WfE e2 →
      (↑(addedOf (diffGo f e1 e2 p' cat')) : Multiset ConfigChange) =
        Multiset.map swapAR ↑(removedOf (diffGo f e2 e1 p' cat'))) :
    (↑(addedOf (diffKeyBody f c1 c2 p cat k)) : Multiset ConfigChange) =
      Multiset.map swapAR ↑(removedOf (diffKeyBody f c2 c1 p cat k)) := by
  cases hl1 : pyLookup c1 k with
  | none =>
    cases hl2 : pyLookup c2 k with
    | none => simp [diffKeyBody, hl1, hl2, addedOf, removedOf]
    | some nv =>
      simp [diffKeyBody, hl1, hl2, addedOf, removedOf, swapAR]
      try rfl
  | some ov =>
    cases hl2 : pyLookup c2 k with
    | none =>
      simp [diffKeyBody, hl1, hl2, addedOf, removedOf, swapAR]
      try rfl
    | some nv =>
      have hwo := WfV_dict_entry h1 hl1
      have hwn := WfV_dict_entry h2 hl2
      simp only [diffKeyBody, hl1, hl2]
      rw [pyEq_symm hwn hwo]
      by_cases heq : pyEq ov nv
      · simp [heq, addedOf, removedOf]
      · simp only [heq, Bool.false_eq_true, if_false]
        cases ov <;> cases nv <;>
          first
          | (simp [addedOf, removedOf] ; done)
          | skip
        exact IH _ _ (p ++ "::" ++ k) cat hwo hwn

/-- Diff symmetry at every fuel: the multiset of `added` records of
`diff(A, B)` is the old/new-swap of the `removed` records of `diff(B, A)`. -/

theorem diffGo_swap : ∀ f : Nat, ∀ c1 c2 : List (String × Value), ∀ p cat : String,
    WfE c1 → WfE c2 →
    (↑(addedOf (diffGo f c1 c2 p cat)) : Multiset ConfigChange) =
      Multiset.map swapAR ↑(removedOf (diffGo f c2 c1 p cat)) := by
  intro f
  induction f with
  | zero =>
    intro c1 c2 p cat h1 h2
    simp [diffGo, addedOf, removedOf]
  | succ f ihf =>
    intro c1 c2 p cat h1 h2
    have hnd1 := WfV_dict_nodup h1
    have hnd2 := WfV_dict_nodup h2
    rw [diffGo_succ, diffGo_succ]
    unfold addedOf removedOf
    rw [filter_flatMap, filter_flatMap]
    rw [← Multiset.coe_bind, ← Multiset.coe_bind]
    rw [Multiset.map_bind]
    have hperm : (↑(unionKeys c1 c2) : Multiset String) = ↑(unionKeys c2 c1) :=
      Multiset.coe_eq_coe.2 (unionKeys_swap_perm hnd1 hnd2)
    rw [hperm]
    apply Multiset.bind_congr
    intro k hk
    exact diffKey_swap f c1 c2 p cat k h1 h2 ihf


/-- Diff symmetry for `compare_configs` (the fuelled entry point). -/
theorem compare_configs_swap (c1 c2 : List (String × Value)) (p cat : String)
    (h1 : WfE c1) (h2 : WfE c2) :
    (↑(addedOf (compare_configs c1 c2 p cat)) : Multiset ConfigChange) =
      Multiset.map swapAR ↑(removedOf (compare_configs c2 c1 p cat)) := by
  unfold compare_configs
  rw [Nat.add_comm (vsizeE c2) (vsizeE c1)]
  exact diffGo_swap _ c1 c2 p cat h1 h2


theorem swapAR_swapAR (c : ConfigChange) : swapAR (swapAR c) = c := by
  unfold swapAR
  by_cases h1 : c.change_type == "added"
  · simp [h1]
    cases c
    simp_all
  · by_cases h2 : c.change_type == "removed"
    · simp [h1, h2]
      cases c
      simp_all
    · simp [h1, h2]

/-- Every `added` record carries `None` as its old value and every
`removed` record carries `None` as its new value, at every fuel. -/

theorem diffGo_absent : ∀ f : Nat, ∀ c1 c2 : List (String × Value), ∀ p cat : String,
    ∀ c : ConfigChange, c ∈ diffGo f c1 c2 p cat →
    (c.change_type = "added" → c.old_value = .null) ∧
    (c.change_type = "removed" → c.new_value = .null) := by
  intro f
  induction f with
  | zero =>
    intro c1 c2 p cat c hc
    simp [diffGo] at hc
  | succ f ihf =>
    intro c1 c2 p cat c hc
    rw [diffGo_succ, List.mem_flatMap] at hc
    obtain ⟨k, hk, hc⟩ := hc
    unfold diffKeyBody at hc
    cases hl1 : pyLookup c1 k <;> cases hl2 : pyLookup c2 k <;>
      rw [hl1, hl2] at hc <;> simp only [] at hc
    case none.none => simp at hc
    case none.some nv =>
      simp at hc
      subst hc
      refine ⟨fun _ => rfl, fun h => ?_⟩
      simp at h
    case some.none ov =>
      simp at hc
      subst hc
      refine ⟨fun h => ?_, fun _ => rfl⟩
      simp at h
    case some.some ov nv =>
      by_cases heq : pyEq ov nv
      · simp [heq] at hc
      · simp only [heq, Bool.false_eq_true, if_false] at hc
        cases ov <;> cases nv <;>
          first
          | (exact ihf _ _ _ _ _ hc)
          | (simp at hc
             subst hc
             exact ⟨fun h => by simp at h, fun h => by simp at h⟩)


theorem memStr_iff {k : String} : ∀ {l : List String}, memStr k l = true ↔ k ∈ l := by
  intro l
  induction l with
  | nil => simp [memStr]
  | cons x xs ih => simp [memStr, ih]


theorem nodupKeys_nodup : ∀ l : List String, nodupKeys l = true → l.Nodup := by
  intro l
  induction l with
  | nil => intro _; exact List.nodup_nil
  | cons k ks ih =>
    intro h
    simp only [nodupKeys, Bool.and_eq_true] at h
    refine List.nodup_cons.2 ⟨?_, ih h.2⟩
    intro hmem
    have h1 := h.1
    rw [Bool.not_eq_eq_eq_not, Bool.not_true] at h1
    rw [← memStr_iff] at hmem
    rw [h1] at hmem
    simp at hmem


theorem wfB_sound : ∀ f : Nat,
    (∀ v : Value, wfB f v = true → WfV v) ∧
    (∀ d : List (String × Value), wfEntsB f d = true → ∀ kv ∈ d, WfV kv.2) := by
  intro f
  induction f with
  | zero =>
    constructor
    · intro v h
      simp [wfB] at h
    · intro d h
      simp [wfEntsB] at h
  | succ f ihf =>
    constructor
    · intro v h
      match v with
      | .null => exact WfV.null
      | .bool b => exact WfV.bool b
      | .int n => exact WfV.int n
      | .float q => exact WfV.float q
      | .str s => exact WfV.str s
      | .list xs =>
        cases xs with
        | nil => exact WfV.list [] (by simp)
        | cons x xs =>
          simp only [wfB, Bool.and_eq_true] at h
          refine WfV.list _ ?_
          intro y hy
          rcases List.mem_cons.1 hy with rfl | hy
          · exact ihf.1 _ h.1
          · exact WfV_list_mem (ihf.1 _ h.2) y hy
      | .dict d =>
        simp only [wfB, Bool.and_eq_true] at h
        exact WfV.dict d (nodupKeys_nodup _ h.1) (ihf.2 d h.2)
    · intro d h
      cases d with
      | nil => intro kv hkv; simp at hkv
      | cons kw rest =>
        obtain ⟨k, w⟩ := kw
        simp only [wfEntsB, Bool.and_eq_true] at h
        intro kv hkv
        rcases List.mem_cons.1 hkv with rfl | hkv
        · exact ihf.1 _ h.1
        · exact ihf.2 rest h.2 kv hkv


/-- Discharge `WfE` on a concrete mapping by computation. -/
theorem wfE_of_wfB {d : List (String × Value)} {f : Nat}
    (h : wfB f (.dict d) = true) : WfE d :=
  (wfB_sound f).1 _ h

-- ### Claims C3, C4, C5

/-- C3: for all parsed mappings `A` and `B` (well-formed, as produced by
the parsers), the multiset of `Added` change records of `diff(A, B)`
equals — with the roles of `oldValue` and `newValue` swapped — the
multiset of `Removed` records of `diff(B, A)`, and vice versa, including
records produced inside recursively-diffed nested `Map` values. -/

theorem claim_C3 (A B : List (String × Value)) (p cat : String)
    (hA : WfE A) (hB : WfE B) :
    (↑(addedOf (compare_configs A B p cat)) : Multiset ConfigChange) =
      Multiset.map swapAR ↑(removedOf (compare_configs B A p cat)) ∧
    (↑(removedOf (compare_configs A B p cat)) : Multiset ConfigChange) =
      Multiset.map swapAR ↑(addedOf (compare_configs B A p cat)) := by
  refine ⟨compare_configs_swap A B p cat hA hB, ?_⟩
  have h := compare_configs_swap B A p cat hB hA
  rw [h, Multiset.map_map]
  have hid : swapAR ∘ swapAR = id := funext swapAR_swapAR
  rw [hid, Multiset.map_id]

/-- Witness for C3 at a concrete pair of mappings with a shared nested
dict value (so the recursion genuinely fires). -/

theorem claim_C3_witness :
    WfE [("a", Value.int 1),
         ("m", Value.dict [("x", Value.int 1), ("y", Value.int 2)])] ∧
    WfE [("b", Value.str "s"),
         ("m", Value.dict [("x", Value.int 1), ("z", Value.bool true)])] ∧
    ((↑(addedOf (compare_configs
        [("a", Value.int 1),
         ("m", Value.dict [("x", Value.int 1), ("y", Value.int 2)])]
        [("b", Value.str "s"),
         ("m", Value.dict [("x", Value.int 1), ("z", Value.bool true)])]
        "options.lua" "DCS")) : Multiset ConfigChange) =
      Multiset.map swapAR ↑(removedOf (compare_configs
        [("b", Value.str "s"),
         ("m", Value.dict [("x", Value.int 1), ("z", Value.bool true)])]
        [("a", Value.int 1),
         ("m", Value.dict [("x", Value.int 1), ("y", Value.int 2)])]
        "options.lua" "DCS"))) :=
  have h1 : WfE [("a", Value.int 1),
      ("m", Value.dict [("x", Value.int 1), ("y", Value.int 2)])] :=
    wfE_of_wfB (f := 20) (by decide)
  have h2 : WfE [("b", Value.str "s"),
      ("m", Value.dict [("x", Value.int 1), ("z", Value.bool true)])] :=
    wfE_of_wfB (f := 20) (by decide)
  ⟨h1, h2, (claim_C3 _ _ "options.lua" "DCS" h1 h2).1⟩

/-- C4 (amended statement proved below is the claim as written):
`classify` is pure and total — it is a total Lean function — and applies
its rules first-match-wins: any name containing an input-device pattern
is `IGNORED` whatever the category; the four concrete classifications
behave as stated.  (`assess_impact` also receives the old and new values,
which its body never reads.) -/

theorem claim_C4 :
    (∀ name cat : String, ∀ ov nv : Value,
       joystick_patterns.any (fun pat => strIn pat (pyLower name)) = true →
       assess_impact name ov nv cat = "IGNORED") ∧
    (∀ cat : String, assess_impact "joy_throttle_axis" .null .null cat = "IGNORED") ∧
    assess_impact "shadowQuality" (.int 2) (.int 4) "DCS" = "HIGH" ∧
    assess_impact "volumeMaster" .null .null "System" = "MEDIUM" ∧
    assess_impact "randomKey" .null .null "Other" = "LOW" := by
  refine ⟨?_, ?_, rfl, rfl, rfl⟩
  · intro name cat ov nv h
    unfold assess_impact
    simp [h]
  · intro cat
    rfl

/-- Witness for C4: a concrete name matching an input-device pattern is
classified `IGNORED` even though it also matches a high-impact pattern
(`shadow`). -/

theorem claim_C4_witness :
    joystick_patterns.any
      (fun pat => strIn pat (pyLower "joy_shadow_button")) = true ∧
    assess_impact "joy_shadow_button" .null .null "DCS" = "IGNORED" :=
  ⟨by decide, claim_C4.1 "joy_shadow_button" "DCS" .null .null (by decide)⟩

/-- C5 (amended): in every change record produced by the diff, an `added`
record's `old_value` is the absent sentinel (`None`) and a `removed`
record's `new_value` is the absent sentinel.  The claim's stronger form —
that the other side is always *present* — is false, because Python uses
`None` both for "absent" and for a parsed JSON `null` value; see
`claim_C5_counterexample`. -/

theorem claim_C5 (A B : List (String × Value)) (p cat : String)
    (c : ConfigChange) (hc : c ∈ compare_configs A B p cat) :
    (c.change_type = "added" → c.old_value = .null) ∧
    (c.change_type = "removed" → c.new_value = .null) :=
  diffGo_absent _ A B p cat c hc

/-- Counterexample to C5 as stated: adding an entry whose parsed value is
JSON `null` produces an `added` record whose `new_value` is *also* the
absent sentinel — both sides are absent, not exactly one. -/

theorem claim_C5_counterexample :
    compare_configs [] [("a", Value.null)] "settings.json" "Other" =
      [⟨"settings.json", "a", Value.null, Value.null, "added", "Other",
        "LOW", ""⟩] := rfl


/-- Witness for C5 at a concrete removed record. -/
theorem claim_C5_witness :
    (⟨"p", "x", Value.int 1, Value.null, "removed", "DCS", "LOW", ""⟩ :
        ConfigChange) ∈
      compare_configs [("x", Value.int 1)] [] "p" "DCS" ∧
    ((⟨"p", "x", Value.int 1, Value.null, "removed", "DCS", "LOW", ""⟩ :
        ConfigChange).change_type = "removed" →
      (⟨"p", "x", Value.int 1, Value.null, "removed", "DCS", "LOW", ""⟩ :
        ConfigChange).new_value = Value.null) :=
  have hmem : (⟨"p", "x", Value.int 1, Value.null, "removed", "DCS", "LOW", ""⟩ :
      ConfigChange) ∈ compare_configs [("x", Value.int 1)] [] "p" "DCS" :=
    List.mem_singleton_self _
  ⟨hmem, (claim_C5 _ _ _ _ _ hmem).2⟩


theorem alookup_isSome_iff {α : Type} {d : List (String × α)} {k : String} :
    (alookup d k).isSome = true ↔ k ∈ d.map Prod.fst := by
  induction d with
  | nil => simp [alookup]
  | cons kw rest ih =>
    obtain ⟨k', w⟩ := kw
    by_cases hk : k' == k
    · have : k' = k := by simpa using hk
      subst this
      simp [alookup]
    · have hne : k' ≠ k := by simpa using hk
      simp [alookup, hk, ih, hne, Ne.symm hne]

/-- One service's state as read from the snapshot JSON (the fields of the
`{ display_name, startup_type, state, ... }` object that the comparison
reads; `none` models a missing field).  The model assumes each service
maps to its (non-empty) record object, as the snapshot file format
specifies, so Python's `if not svc1` test is the absence test. -/


theorem svcBody_names (s1 s2 : List (String × ServiceInfo)) (k : String) :
    ∀ c ∈ svcBody s1 s2 k, c.serviceName = k := by
  intro c hc
  unfold svcBody at hc
  cases h1 : alookup s1 k with
  | none =>
    cases h2 : alookup s2 k with
    | none =>
      rw [h1, h2] at hc
      simp at hc
    | some svc2 =>
      rw [h1, h2] at hc
      simp at hc
      subst hc
      rfl
  | some svc1 =>
    cases h2 : alookup s2 k with
    | none =>
      rw [h1, h2] at hc
      simp at hc
      subst hc
      rfl
    | some svc2 =>
      rw [h1, h2] at hc
      simp only [] at hc
      rcases List.mem_append.1 hc with h | h
      · split_ifs at h with hd
        · simp at h
          subst h
          rfl
        · simp at h
      · split_ifs at h with hd
        · simp at h
          subst h
          rfl
        · simp at h


theorem flatMap_filter_eq {β : Type} (body : String → List β) (nm : β → String)
    (hnames : ∀ k, ∀ c ∈ body k, nm c = k) (n : String) :
    ∀ ks : List String, ks.Nodup → n ∈ ks →
    (ks.flatMap body).filter (fun c => nm c == n) = body n := by
  intro ks
  induction ks with
  | nil => simp
  | cons k ks ih =>
    intro hnd hmem
    simp only [List.flatMap_cons, List.filter_append]
    rcases List.mem_cons.1 hmem with rfl | hmem'
    · have hhead : (body n).filter (fun c => nm c == n) = body n := by
        apply List.filter_eq_self.2
        intro c hc
        simp [hnames n c hc]
      have htail : (ks.flatMap body).filter (fun c => nm c == n) = [] := by
        apply List.filter_eq_nil_iff.2
        intro c hc
        rw [List.mem_flatMap] at hc
        obtain ⟨k', hk', hc⟩ := hc
        have hck := hnames k' c hc
        have hk'n : k' ≠ n := by
          rintro rfl
          exact (List.nodup_cons.1 hnd).1 hk'
        simp [hck, hk'n]
      rw [hhead, htail, List.append_nil]
    · have hkn : k ≠ n := by
        rintro rfl
        exact (List.nodup_cons.1 hnd).1 hmem'
      have hhead : (body k).filter (fun c => nm c == n) = [] := by
        apply List.filter_eq_nil_iff.2
        intro c hc
        simp [hnames k c hc, hkn]
      rw [hhead, List.nil_append]
      exact ih (List.nodup_cons.1 hnd).2 hmem'


theorem svcUnionKeys_nodup {s1 s2 : List (String × ServiceInfo)}
    (h1 : (s1.map Prod.fst).Nodup) (h2 : (s2.map Prod.fst).Nodup) :
    (svcUnionKeys s1 s2).Nodup := by
  unfold svcUnionKeys
  rw [List.nodup_append]
  refine ⟨h1, h2.filter _, ?_⟩
  intro k hk1 hk2
  have hthis := (List.mem_filter.1 hk2).2
  simp only [Bool.not_eq_eq_eq_not, Bool.not_true, Bool.not_eq_true',
    ← Bool.not_eq_true] at hthis
  exact hthis (alookup_isSome_iff.2 hk1)

/-- C6: for every service name present in both snapshots, a
`startup_type_changed` record is emitted exactly when the startup types
differ, independently a `state_changed` record is emitted exactly when
the run states differ, and the service contributes at most two records. -/

theorem claim_C6 (s1 s2 : List (String × ServiceInfo)) (n : String)
    (v1 v2 : ServiceInfo)
    (hnd1 : (s1.map Prod.fst).Nodup) (hnd2 : (s2.map Prod.fst).Nodup)
    (h1 : alookup s1 n = some v1) (h2 : alookup s2 n = some v2) :
    (((compare_services s1 s2).filter (fun c => c.serviceName == n)).filter
        (fun c => c.isStartupTypeChanged)).length =
      (if v1.startup_type = v2.startup_type then 0 else 1) ∧
    (((compare_services s1 s2).filter (fun c => c.serviceName == n)).filter
        (fun c => c.isStateChanged)).length =
      (if v1.state = v2.state then 0 else 1) ∧
    ((compare_services s1 s2).filter (fun c => c.serviceName == n)).length ≤ 2 := by
  have hmem : n ∈ svcUnionKeys s1 s2 := by
    apply List.mem_append_left
    exact alookup_isSome_iff.1 (by simp [h1])
  have hat : (compare_services s1 s2).filter (fun c => c.serviceName == n) =
      svcBody s1 s2 n :=
    flatMap_filter_eq (svcBody s1 s2) ServiceChange.serviceName
      (svcBody_names s1 s2) n (svcUnionKeys s1 s2)
      (svcUnionKeys_nodup hnd1 hnd2) hmem
  rw [hat]
  unfold svcBody
  rw [h1, h2]
  by_cases hst : v1.state = v2.state <;> by_cases hsu : v1.startup_type = v2.startup_type <;>
    simp [hst, hsu, ServiceChange.isStartupTypeChanged, ServiceChange.isStateChanged]

/-- Witness for C6: one service present in both snapshots whose startup
type and run state both changed contributes exactly one startup-type
record and at most two records overall. -/

theorem claim_C6_witness :
    (([("svc", (⟨some "Svc", some "Automatic", some "Running"⟩ : ServiceInfo))].map
        Prod.fst).Nodup) ∧
    (([("svc", (⟨some "Svc", some "Manual", some "Stopped"⟩ : ServiceInfo))].map
        Prod.fst).Nodup) ∧
    ((((compare_services
        [("svc", (⟨some "Svc", some "Automatic", some "Running"⟩ : ServiceInfo))]
        [("svc", (⟨some "Svc", some "Manual", some "Stopped"⟩ : ServiceInfo))]).filter
          (fun c => c.serviceName == "svc")).filter
          (fun c => c.isStartupTypeChanged)).length =
      (if (⟨some "Svc", some "Automatic", some "Running"⟩ : ServiceInfo).startup_type =
          (⟨some "Svc", some "Manual", some "Stopped"⟩ : ServiceInfo).startup_type
       then 0 else 1)) ∧
    (((compare_services
        [("svc", (⟨some "Svc", some "Automatic", some "Running"⟩ : ServiceInfo))]
        [("svc", (⟨some "Svc", some "Manual", some "Stopped"⟩ : ServiceInfo))]).filter
          (fun c => c.serviceName == "svc")).length ≤ 2) := by
  refine ⟨by decide, by decide, ?_, ?_⟩
  · exact (claim_C6
      [("svc", (⟨some "Svc", some "Automatic", some "Running"⟩ : ServiceInfo))]
      [("svc", (⟨some "Svc", some "Manual", some "Stopped"⟩ : ServiceInfo))]
      "svc" ⟨some "Svc", some "Automatic", some "Running"⟩
      ⟨some "Svc", some "Manual", some "Stopped"⟩
      (by decide) (by decide) rfl rfl).1
  · exact (claim_C6
      [("svc", (⟨some "Svc", some "Automatic", some "Running"⟩ : ServiceInfo))]
      [("svc", (⟨some "Svc", some "Manual", some "Stopped"⟩ : ServiceInfo))]
      "svc" ⟨some "Svc", some "Automatic", some "Running"⟩
      ⟨some "Svc", some "Manual", some "Stopped"⟩
      (by decide) (by decide) rfl rfl).2.2

-- ### String utilities shared by the parsers
-- (implemented on `List Char` so that the kernel can evaluate them)

/-- The whitespace class of Python `str.strip()` and of `\s` in `re`
(ASCII part). -/


-- ### Claims C1, C7, C8

theorem luaFlatFold_isOk (l : List (String × String)) :
    ∀ acc, (luaFlatFold acc l).isOk =
      l.all fun kv => (luaCoerceTop (pyStrip kv.2)).isOk := by
  induction l with
  | nil => intro acc; rfl
  | cons kv rest ih =>
    intro acc
    obtain ⟨setting, value⟩ := kv
    simp only [luaFlatFold, List.all_cons]
    cases h : luaCoerceTop (pyStrip value) with
    | ok v =>
      rw [show (Except.ok v : Except String Value).isOk = true from rfl, Bool.true_and]
      exact ih (pyInsert acc setting v)
    | error e =>
      rw [show (Except.error e : Except String Value).isOk = false from rfl, Bool.false_and]
      rfl


theorem parse_lua_isOk (s : String) :
    (parse_lua_config s).isOk =
      (findall1 s.data).all fun kv => (luaCoerceTop (pyStrip kv.2)).isOk := by
  have h := luaFlatFold_isOk (findall1 s.data) []
  unfold parse_lua_config
  cases hp : luaFlatFold [] (findall1 s.data) with
  | ok flat =>
    rw [hp] at h
    rw [← h]
    rfl
  | error e =>
    rw [hp] at h
    rw [← h]

theorem cfgLine_isOk (settings : List (String × Value)) (l : List Char) :
    (cfgLine settings l).isOk = (cfgLine [] l).isOk := by
  simp only [cfgLine]
  split_ifs
  · rfl
  · rfl
  · rfl
  · cases hc : cfgCoerce (cfgValue (stripChars l)) <;> rfl
  · rfl

theorem cfgFold_isOk : ∀ (ls : List (List Char)) (settings : List (String × Value)),
    (cfgFold settings ls).isOk = ls.all fun l => (cfgLine [] l).isOk := by
  intro ls
  induction ls with
  | nil => intro s; rfl
  | cons l ls ih =>
    intro s
    simp only [cfgFold, List.all_cons]
    have hind := cfgLine_isOk s l
    cases h : cfgLine s l with
    | ok s2 =>
      rw [h] at hind
      rw [show (Except.ok s2 : Except String (List (String × Value))).isOk = true
        from rfl] at hind
      rw [← hind, Bool.true_and]
      exact ih s2
    | error e =>
      rw [h] at hind
      rw [show (Except.error e : Except String (List (String × Value))).isOk = false
        from rfl] at hind
      rw [← hind, Bool.false_and]
      rfl

theorem parse_cfg_isOk (s : String) :
    (parse_cfg_config s).isOk = (splitNl s.data).all fun l => (cfgLine [] l).isOk :=
  cfgFold_isOk (splitNl s.data) []

/-- C1 (amended): `parse` fails on a supported extension when the bytes
do not decode as text, but not only then: a `.json` file fails whenever
its decoded text is not valid JSON; a `.lua` file succeeds exactly when
every top-level matched value coerces without a raise — `int(value)` and
`float(value)` raise on `isdigit`-true values holding a non-decimal digit
such as `²`, and `float(value)` also on more than one dot; and a
`.cfg`/`.ini` file succeeds exactly when every line coerces without such
a raise, so no supported extension degrades gracefully on every decodable
input. -/

theorem claim_C1 :
    (∀ s : String, (parse_file ".cfg" (some s)).isOk =
      (splitNl s.data).all fun l => (cfgLine [] l).isOk) ∧
    (∀ s : String, (parse_file ".ini" (some s)).isOk =
      (splitNl s.data).all fun l => (cfgLine [] l).isOk) ∧
    (∀ s : String, ∀ d : List (String × Value),
      parse_cfg_config s = .ok d → parse_file ".cfg" (some s) = .ok (.dict d)) ∧
    (parse_file ".lua" none).isOk = false ∧
    (parse_file ".json" none).isOk = false ∧
    (parse_file ".cfg" none).isOk = false ∧
    (parse_file ".ini" none).isOk = false ∧
    (∀ s : String, ∀ v : Value,
      jsonParse s = some v → parse_file ".json" (some s) = .ok v) ∧
    (∀ s : String,
      jsonParse s = none →
        parse_file ".json" (some s) = .error "Failed to parse JSON file") ∧
    (∀ s : String, (parse_file ".lua" (some s)).isOk =
      (findall1 s.data).all fun kv => (luaCoerceTop (pyStrip kv.2)).isOk) := by
  refine ⟨?_, ?_, ?_, rfl, rfl, rfl, rfl, ?_, ?_, ?_⟩
  · intro s
    have hrw : parse_file ".cfg" (some s) =
        (match parse_cfg_config s with
         | .ok d => Except.ok (Value.dict d)
         | .error e => Except.error e) := rfl
    rw [hrw, ← parse_cfg_isOk s]
    cases parse_cfg_config s <;> rfl
  · intro s
    have hrw : parse_file ".ini" (some s) =
        (match parse_cfg_config s with
         | .ok d => Except.ok (Value.dict d)
         | .error e => Except.error e) := rfl
    rw [hrw, ← parse_cfg_isOk s]
    cases parse_cfg_config s <;> rfl
  · intro s d h
    have hrw : parse_file ".cfg" (some s) =
        (match parse_cfg_config s with
         | .ok d => Except.ok (Value.dict d)
         | .error e => Except.error e) := rfl
    rw [hrw, h]
  · intro s v h
    simp [parse_file, h]
  · intro s h
    simp [parse_file, h]
  · intro s
    have h := parse_lua_isOk s
    cases hp : parse_lua_config s with
    | ok d =>
      rw [hp] at h
      simpa [parse_file, hp, Except.isOk] using h
    | error e =>
      rw [hp] at h
      simpa [parse_file, hp, Except.isOk] using h

/-- Counterexample to C1 as stated: three inputs that decode as text yet
make `parse` raise `ValueError`: malformed JSON (`"\x7b"`), a `.cfg` line
whose value `²` is `isdigit`-true but rejected by `int()`, and a `.lua`
value `²` hitting the same `int()` raise. -/

theorem claim_C1_counterexample :
    parse_file ".json" (some "\x7b") = .error "Failed to parse JSON file" ∧
    parse_file ".cfg" (some "x=²") = .error "Failed to parse CFG file" ∧
    parse_file ".lua" (some "[\"x\"] = ²,\n") = .error "Failed to parse Lua file" :=
  ⟨rfl, rfl, rfl⟩

/-- Witness for C1 on concrete inputs: valid JSON is returned as parsed,
a decodable `.lua` body with a multi-dot numeric value fails while a
plain one succeeds, and a `.cfg` body with a non-decimal digit value
fails while a plain one succeeds. -/

theorem claim_C1_witness :
    jsonParse "\x7b\"a\": 1\x7d" =
      some (.dict [("a", Value.int 1)]) ∧
    parse_file ".json" (some "\x7b\"a\": 1\x7d") =
      .ok (.dict [("a", Value.int 1)]) ∧
    (parse_file ".lua" (some "[\"x\"] = 1.2.3,\n")).isOk = false ∧
    (parse_file ".lua" (some "[\"msaa\"] = 4,\n")).isOk = true ∧
    (parse_file ".cfg" (some "x=5\ny=²\n")).isOk = false ∧
    (parse_file ".cfg" (some "x=5\n")).isOk = true :=
  ⟨rfl,
   claim_C1.2.2.2.2.2.2.2.1 "\x7b\"a\": 1\x7d" (.dict [("a", Value.int 1)]) rfl,
   by rw [claim_C1.2.2.2.2.2.2.2.2.2 "[\"x\"] = 1.2.3,\n"]; rfl,
   by rw [claim_C1.2.2.2.2.2.2.2.2.2 "[\"msaa\"] = 4,\n"]; rfl,
   by rw [claim_C1.1 "x=5\ny=²\n"]; rfl,
   by rw [claim_C1.1 "x=5\n"]; rfl⟩

/-- C7 (amended): inside a nested Lua table the inner coercion converts
only the exact strings `true`/`false` (case-sensitively) to Bool and a
double-quoted value to the unquoted String; every other value — all-digit
and decimal numeric forms included — remains the raw string, with no Int
or Float conversion. -/

theorem claim_C7 :
    luaCoerceInner "true" = .bool true ∧
    luaCoerceInner "false" = .bool false ∧
    luaCoerceInner "True" = .str "True" ∧
    (∀ s : String, pyIsDigit s.data = true → luaCoerceInner s = .str s) ∧
    (∀ s : String, quotedBy '"' s.data = true → s ≠ "true" → s ≠ "false" →
      luaCoerceInner s = .str ⟨stripEnds s.data⟩) := by
  refine ⟨rfl, rfl, rfl, ?_, ?_⟩
  · intro s h
    have htrue : (s == "true") = false := by
      cases hb : s == "true"
      · rfl
      · have hs : s = "true" := by simpa using hb
        subst hs
        exact absurd h (by decide)
    have hfalse : (s == "false") = false := by
      cases hb : s == "false"
      · rfl
      · have hs : s = "false" := by simpa using hb
        subst hs
        exact absurd h (by decide)
    have hq : quotedBy '"' s.data = false := by
      cases hd : s.data with
      | nil =>
        rw [pyIsDigit, hd] at h
        exact absurd h (by decide)
      | cons c cs =>
        rw [pyIsDigit, hd] at h
        simp only [List.isEmpty_cons, Bool.not_false, Bool.true_and,
          List.all_cons, Bool.and_eq_true] at h
        have hc : isPyDigitChar c = true := h.1
        have hcq : (c == '"') = false := by
          cases hb : c == '"'
          · rfl
          · have hcc : c = '"' := by simpa using hb
            subst hcc
            exact absurd hc (by decide)
        rw [quotedBy]
        rw [show ((c :: cs).head? == some '"') = (c == '"') from rfl]
        rw [hcq, Bool.false_and]
    unfold luaCoerceInner
    rw [htrue, hfalse, hq]
    simp
  · intro s hq h1 h2
    have h1' : (s == "true") = false := by simpa using h1
    have h2' : (s == "false") = false := by simpa using h2
    unfold luaCoerceInner
    rw [h1', h2', hq]
    simp

/-- Counterexample to C7 as stated: in
`["g"] = { ["x"] = 5, }` the inner all-digit value `5` is stored as the
string `"5"` inside the nested map, not as the integer `5` (which the
top-level pass, scanning the same line, does produce for the flat key). -/

theorem claim_C7_counterexample :
    parse_file ".lua" (some "[\"g\"] = \x7b\n[\"x\"] = 5,\n\x7d\n") =
      .ok (.dict [("g", .dict [("x", Value.str "5")]), ("x", Value.int 5)]) := rfl


/-- Witness for C7 on concrete inner values. -/
theorem claim_C7_witness :
    pyIsDigit "5".data = true ∧ luaCoerceInner "5" = .str "5" ∧
    quotedBy '"' "\"hi\"".data = true ∧ luaCoerceInner "\"hi\"" = .str "hi" :=
  ⟨by decide, claim_C7.2.2.2.1 "5" (by decide),
   by decide, claim_C7.2.2.2.2 "\"hi\"" (by decide) (by decide) (by decide)⟩

/-- C8 (amended): `parse` returns the decoded JSON value unchanged; a
non-object top level (number, string, array, …) is returned as that bare
value, not wrapped as a single-entry `Opaque` map. -/

theorem claim_C8 (s : String) (v : Value) (h : jsonParse s = some v) :
    parse_file ".json" (some s) = .ok v := by
  simp [parse_file, h]

/-- Counterexample to C8 as stated: the `.json` content `42` decodes as
JSON but is not an object — `parse` returns the bare integer, which is
not a mapping (and in particular not an `Opaque` single-entry map). -/

theorem claim_C8_counterexample :
    parse_file ".json" (some "42") = .ok (Value.int 42) ∧
    (Value.int 42).isDict = false := ⟨rfl, rfl⟩


/-- Witness for C8 at an array top level. -/
theorem claim_C8_witness :
    jsonParse "[1, 2]" = some (.list [Value.int 1, Value.int 2]) ∧
    parse_file ".json" (some "[1, 2]") = .ok (.list [Value.int 1, Value.int 2]) :=
  ⟨rfl, claim_C8 "[1, 2]" (.list [Value.int 1, Value.int 2]) rfl⟩

-- ### FrameView telemetry (`frameview_integration.py`)

/-- One row of the telemetry CSV as `csv.DictReader` presents it:
`row.get(column)`, with `none` for a missing column (a `None` cell value
behaves like a missing column here: both make the row be skipped or the
metric default to `0.0`). -/


theorem collect_pos : ∀ (rows : List CsvRow) (s : FrameViewSession),
    s ∈ collectSessions rows →
    0 < s.avg_fps ∧ 0 < s.session_duration_ms ∧ 0 < s.one_percent_low := by
  intro rows
  induction rows with
  | nil => intro s hs; simp [collectSessions] at hs
  | cons row rest ih =>
    intro s hs
    by_cases h1 : pyStrip (row.application.getD "") ≠ "DCS.exe"
    · rw [collectSessions, if_pos h1] at hs; exact ih s hs
    · rw [collectSessions, if_neg h1] at hs
      by_cases h2 : pyStrip (row.timeStamp.getD "") = ""
      · rw [if_pos h2] at hs; exact ih s hs
      · rw [if_neg h2] at hs
        cases hts : strpTime (pyStrip (row.timeStamp.getD "")) with
        | none => rw [hts] at hs; exact ih s hs
        | some ts =>
          rw [hts] at hs
          dsimp only at hs
          by_cases h3 : 0 < (mkSession ts row).avg_fps ∧
              0 < (mkSession ts row).session_duration_ms ∧
              0 < (mkSession ts row).one_percent_low
          · rw [if_pos h3] at hs
            rcases List.mem_cons.1 hs with rfl | hs
            · exact h3
            · exact ih s hs
          · rw [if_neg h3] at hs; exact ih s hs

/-- C10: every session returned by `_parse_csv` has strictly positive
average FPS, strictly positive 1% low and strictly positive duration; a
tracked-application row whose avg FPS, 1% low or Time (ms) parses to
zero or a negative number (including blank or non-numeric fields, which
`safe_float` turns into `0.0`) is silently dropped. -/

theorem claim_C10 (rows : List CsvRow) (s : FrameViewSession)
    (hs : s ∈ parse_csv rows) :
    0 < s.avg_fps ∧ 0 < s.one_percent_low ∧ 0 < s.session_duration_ms := by
  have hmem : s ∈ collectSessions rows :=
    ((List.perm_insertionSort tsLe (collectSessions rows)).mem_iff).1 hs
  obtain ⟨ha, hd, hl⟩ := collect_pos rows s hmem
  exact ⟨ha, hl, hd⟩


theorem claim_C10_witness :
    fvSession ∈ parse_csv [fvRow] ∧
    (0 < fvSession.avg_fps ∧ 0 < fvSession.one_percent_low ∧
     0 < fvSession.session_duration_ms) :=
  have hmem : fvSession ∈ parse_csv [fvRow] := by decide
  ⟨hmem, claim_C10 [fvRow] fvSession hmem⟩

/-- C9 (corrected): `_parse_csv` returns the kept sessions sorted
ascending by timestamp, skips non-tracked-application rows and rows with
an unparsable (or blank) timestamp, and never aborts; but a row with a
non-numeric metric field is NOT skipped: `safe_float` substitutes `0.0`
for it, and the row is kept (with the substituted value) whenever the
resulting avg FPS, duration and 1% low are all positive. -/

theorem claim_C9 (rows : List CsvRow) :
    List.Pairwise tsLe (parse_csv rows) ∧
    (parse_csv rows).Perm (collectSessions rows) ∧
    (∀ row rest, pyStrip (row.application.getD "") ≠ "DCS.exe" →
      collectSessions (row :: rest) = collectSessions rest) ∧
    (∀ row rest, strpTime (pyStrip (row.timeStamp.getD "")) = none →
      collectSessions (row :: rest) = collectSessions rest) ∧
    (∀ row rest ts, pyStrip (row.application.getD "") = "DCS.exe" →
      strpTime (pyStrip (row.timeStamp.getD "")) = some ts →
      0 < (mkSession ts row).avg_fps →
      0 < (mkSession ts row).session_duration_ms →
      0 < (mkSession ts row).one_percent_low →
      collectSessions (row :: rest) = mkSession ts row :: collectSessions rest) := by
  refine ⟨List.sorted_insertionSort tsLe (collectSessions rows),
    List.perm_insertionSort tsLe (collectSessions rows), ?_, ?_, ?_⟩
  · intro row rest h
    rw [collectSessions, if_pos h]
  · intro row rest hts
    by_cases happ : pyStrip (row.application.getD "") ≠ "DCS.exe"
    · rw [collectSessions, if_pos happ]
    · rw [collectSessions, if_neg happ]
      by_cases hempty : pyStrip (row.timeStamp.getD "") = ""
      · rw [if_pos hempty]
      · rw [if_neg hempty, hts]
  · intro row rest ts happ hts ha hd hl
    have hne : pyStrip (row.timeStamp.getD "") ≠ "" := by
      intro h
      rw [h] at hts
      exact Option.noConfusion hts
    rw [collectSessions, if_neg (fun hc => hc happ), if_neg hne, hts]
    dsimp only
    rw [if_pos ⟨ha, hd, hl⟩]


theorem claim_C9_counterexample :
    parse_csv [⟨some "DCS.exe", some "2025-10-24T132935", some "60", some "48",
      some "30", some "N/A", some "300000", some "2880x1700",
      some "90", some "70", some "40", some "60"⟩] =
    [{ timestamp := Rat.divInt (tsEncode 2025 10 24 13 29 35) 1,
       application := "DCS.exe", avg_fps := 60, one_percent_low := 48,
       min_fps := 30, max_fps := 0, session_duration_ms := 300000,
       resolution := "2880x1700", gpu_util := 90, gpu_temp := 70,
       cpu_util := 40, cpu_temp := 60 }] := by decide


theorem claim_C9_witness :
    strpTime (pyStrip (fvBadRow.timeStamp.getD "")) = none ∧
    collectSessions [fvBadRow] = collectSessions [] :=
  ⟨rfl, (claim_C9 []).2.2.2.1 fvBadRow [] rfl⟩


theorem bestFold_nil (bt w : ℚ) (best : FrameViewSession) :
    bestFold bt w best [] = best := rfl


theorem bestFold_cons (bt w : ℚ) (best s : FrameViewSession)
    (xs : List FrameViewSession) :
    bestFold bt w best (s :: xs) =
    bestFold bt w
      (if session_score bt w best < session_score bt w s then s else best) xs := rfl


theorem bestFold_spec (bt w : ℚ) :
    ∀ (xs : List FrameViewSession) (best : FrameViewSession),
    List.Pairwise tsLe (best :: xs) →
    bestFold bt w best xs ∈ best :: xs ∧
    (∀ y ∈ best :: xs,
      session_score bt w y ≤ session_score bt w (bestFold bt w best xs)) ∧
    (∀ y ∈ best :: xs,
      session_score bt w y = session_score bt w (bestFold bt w best xs) →
      (bestFold bt w best xs).timestamp ≤ y.timestamp) ∧
    (session_score bt w best = session_score bt w (bestFold bt w best xs) →
      bestFold bt w best xs = best) := by
  intro xs
  induction xs with
  | nil =>
    intro best h
    refine ⟨List.mem_cons_self _ _, ?_, ?_, fun _ => rfl⟩
    · intro y hy
      rcases List.mem_cons.1 hy with rfl | hy
      · exact le_refl _
      · exact absurd hy (List.not_mem_nil y)
    · intro y hy _
      rcases List.mem_cons.1 hy with rfl | hy
      · exact le_refl _
      · exact absurd hy (List.not_mem_nil y)
  | cons s xs' ih =>
    intro best h
    rw [List.pairwise_cons] at h
    obtain ⟨hb, hsx⟩ := h
    have hbs : tsLe best s := hb s (List.mem_cons_self s xs')
    have hbx' : List.Pairwise tsLe (best :: xs') := by
      rw [List.pairwise_cons]
      exact ⟨fun y hy => hb y (List.mem_cons_of_mem s hy),
        (List.pairwise_cons.1 hsx).2⟩
    rw [bestFold_cons]
    by_cases hlt : session_score bt w best < session_score bt w s
    · rw [if_pos hlt]
      obtain ⟨mem2, le2, tie2, eq2⟩ := ih s hsx
      have hlt2 : session_score bt w best <
          session_score bt w (bestFold bt w s xs') :=
        lt_of_lt_of_le hlt (le2 s (List.mem_cons_self s xs'))
      refine ⟨?_, ?_, ?_, ?_⟩
      · rcases List.mem_cons.1 mem2 with heq | hmem
        · rw [heq]
          exact List.mem_cons_of_mem best (List.mem_cons_self s xs')
        · exact List.mem_cons_of_mem best (List.mem_cons_of_mem s hmem)
      · intro y hy
        rcases List.mem_cons.1 hy with rfl | hy2
        · exact le_of_lt hlt2
        · exact le2 y hy2
      · intro y hy heq
        rcases List.mem_cons.1 hy with rfl | hy2
        · exact absurd heq (ne_of_lt hlt2)
        · exact tie2 y hy2 heq
      · intro heq
        exact absurd heq (ne_of_lt hlt2)
    · rw [if_neg hlt]
      obtain ⟨mem2, le2, tie2, eq2⟩ := ih best hbx'
      have hsb : session_score bt w s ≤ session_score bt w best :=
        le_of_not_lt hlt
      refine ⟨?_, ?_, ?_, ?_⟩
      · rcases List.mem_cons.1 mem2 with heq | hmem
        · rw [heq]
          exact List.mem_cons_self best (s :: xs')
        · exact List.mem_cons_of_mem best (List.mem_cons_of_mem s hmem)
      · intro y hy
        rcases List.mem_cons.1 hy with rfl | hy2
        · exact le2 y (List.mem_cons_self y xs')
        · rcases List.mem_cons.1 hy2 with rfl | hy3
          · exact le_trans hsb (le2 best (List.mem_cons_self best xs'))
          · exact le2 y (List.mem_cons_of_mem best hy3)
      · intro y hy heq
        rcases List.mem_cons.1 hy with rfl | hy2
        · exact tie2 y (List.mem_cons_self y xs') heq
        · rcases List.mem_cons.1 hy2 with rfl | hy3
          · have h1 : session_score bt w best ≤
                session_score bt w (bestFold bt w best xs') :=
              le2 best (List.mem_cons_self best xs')
            have h2 : session_score bt w best =
                session_score bt w (bestFold bt w best xs') :=
              le_antisymm h1 (heq ▸ hsb)
            rw [eq2 h2]
            exact hbs
          · exact tie2 y (List.mem_cons_of_mem best hy3) heq
      · exact eq2

/-- C2: when the candidate set (sessions in the inclusive window with
sufficient duration) is empty the result is `none`; otherwise the result
is a candidate with maximal score, and among equal-scoring candidates it
is the one with the earliest timestamp (sessions arrive sorted ascending
from `_parse_csv`, and Python `max` keeps the first maximal element);
and the score is exactly
`0.6*min(durationMinutes,10) + 0.3*max(0, 1-|dt|/window) + 0.1*stability`. -/

theorem claim_C2 (sessions : List FrameViewSession) (bt w mds : ℚ)
    (hsorted : List.Pairwise tsLe sessions) :
    (get_best_session_for_backup sessions bt w mds = none ↔
      find_sessions_near_backup sessions bt w mds = []) ∧
    (∀ r, get_best_session_for_backup sessions bt w mds = some r →
      r ∈ find_sessions_near_backup sessions bt w mds ∧
      (∀ s ∈ find_sessions_near_backup sessions bt w mds,
        session_score bt w s ≤ session_score bt w r) ∧
      (∀ s ∈ find_sessions_near_backup sessions bt w mds,
        session_score bt w s = session_score bt w r →
        r.timestamp ≤ s.timestamp)) ∧
    (∀ s, session_score bt w s =
      6/10 * min (s.session_duration_ms / 60000) 10 +
      3/10 * max 0 (1 - |s.timestamp - bt| / 60 / w) +
      1/10 * (if 0 < s.avg_fps then s.one_percent_low / s.avg_fps else 0)) := by
  refine ⟨?_, ?_, ?_⟩
  · unfold get_best_session_for_backup
    cases hf : find_sessions_near_backup sessions bt w mds with
    | nil => simp
    | cons x xs => simp
  · intro r hr
    unfold get_best_session_for_backup at hr
    cases hf : find_sessions_near_backup sessions bt w mds with
    | nil =>
      rw [hf] at hr
      exact Option.noConfusion hr
    | cons x xs =>
      rw [hf] at hr
      have hr2 : some (bestFold bt w x xs) = some r := hr
      have hr3 : bestFold bt w x xs = r := Option.some.inj hr2
      have hpx : List.Pairwise tsLe (x :: xs) :=
        hf ▸ List.Pairwise.filter _ hsorted
      obtain ⟨mem2, le2, tie2, _⟩ := bestFold_spec bt w xs x hpx
      rw [hr3] at mem2 le2 tie2
      exact ⟨mem2, le2, tie2⟩
  · intro s
    simp only [session_score, session_duration_minutes,
      performance_stability_ratio]
    rw [div_div]
    norm_num
    ring_nf


theorem claim_C2_witness :
    List.Pairwise tsLe [fvS1, fvS2] ∧
    ((get_best_session_for_backup [fvS1, fvS2] 600000 15 30 = none ↔
      find_sessions_near_backup [fvS1, fvS2] 600000 15 30 = []) ∧
    (∀ r, get_best_session_for_backup [fvS1, fvS2] 600000 15 30 = some r →
      r ∈ find_sessions_near_backup [fvS1, fvS2] 600000 15 30 ∧
      (∀ s ∈ find_sessions_near_backup [fvS1, fvS2] 600000 15 30,
        session_score 600000 15 s ≤ session_score 600000 15 r) ∧
      (∀ s ∈ find_sessions_near_backup [fvS1, fvS2] 600000 15 30,
        session_score 600000 15 s = session_score 600000 15 r →
        r.timestamp ≤ s.timestamp)) ∧
    (∀ s, session_score 600000 15 s =
      6/10 * min (s.session_duration_ms / 60000) 10 +
      3/10 * max 0 (1 - |s.timestamp - 600000| / 60 / 15) +
      1/10 * (if 0 < s.avg_fps then s.one_percent_low / s.avg_fps else 0))) :=
  ⟨by decide, claim_C2 [fvS1, fvS2] 600000 15 30 (by decide)⟩
